import Mathlib

/-!
Verification of the QuickFill browser-extension core against its
natural-language specification.

This file shallowly embeds the form-fill pipeline of the repository:

* `src/utils/gptUtils.ts` — `parseGPTResponse`, `processFormWithGPT`;
* `src/utils/gptProcessor.js` — `EnhancedCache`, `processGPTMappingResponse`;
* `src/utils/formUtils.js` — `fillFormWithMappings` element resolution,
  `fillElement`, `fillSelectElement`, `fillCheckboxOrRadio`,
  `fillInputElement`, `groupInputsByContainer`, `extractFormElements`;
* `src/utils/domUtils.ts` — `indexAllInputs`, `fillInputByIdx`;
* the V2 content script's `handleFillForms` and the background script's
  fill orchestration.

JavaScript strings are modelled as Lean `String`s, the DOM as a flat
pre-order array of nodes with parent pointers, `Date.now()` as an explicit
`now : Nat` argument, and the JS `Date` constructor (whose parsing beyond
the ISO forms is implementation-defined) as an explicit function argument.
All definitions are executable; theorems about them follow at the end of
each section's development and are gathered per specification claim.
-/

namespace QuickFill

/-! ### JavaScript string primitives -/

/-- `String.prototype.toLowerCase` (ASCII range; every string the embedded
functions compare is ASCII apart from `"não"`, whose characters are
unaffected by either implementation). -/
def jsToLower (s : String) : String := ⟨s.data.map Char.toLower⟩

/-- `String.prototype.includes`: `sub` occurs contiguously in `s`
(the empty string occurs in every string, as in JS). -/
def jsIncludes (s sub : String) : Bool :=
  (List.range (s.data.length + 1)).any fun i => sub.data.isPrefixOf (s.data.drop i)

/-- `String.prototype.startsWith`. -/
def jsStartsWith (s pre : String) : Bool := pre.data.isPrefixOf s.data

/-- JS `\s` class restricted to the whitespace characters `String.trim`
also strips; the repository only ever trims ordinary spaces and newlines. -/
def jsIsWs (c : Char) : Bool :=
  match c.toNat with
  | 32 | 10 | 9 | 13 => true
  | _ => false

def dropLeadingWs : List Char → List Char
  | c :: cs => if jsIsWs c then dropLeadingWs cs else c :: cs
  | [] => []

/-- `String.prototype.trim`. -/
def jsTrim (s : String) : String :=
  ⟨((dropLeadingWs s.data.reverse).reverse) |> dropLeadingWs⟩

/-- `String.prototype.split(c)` (single-character separator). -/
def splitOnCharAux (c : Char) : List Char → List Char → List (List Char)
  | [], acc => [acc.reverse]
  | x :: xs, acc =>
    if x == c then acc.reverse :: splitOnCharAux c xs []
    else splitOnCharAux c xs (x :: acc)

def jsSplitChar (c : Char) (s : String) : List String :=
  (splitOnCharAux c s.data []).map List.asString

/-- `String(n).padStart(2, '0')` as used on day/month numbers. -/
def pad2 (n : Nat) : String := if n < 10 then "0" ++ toString n else toString n

/-- Index of the first occurrence of `pat` in `l`, if any. -/
def findSubstrIdx (pat l : List Char) : Option Nat :=
  (List.range (l.length + 1)).find? fun i => pat.isPrefixOf (l.drop i)

/-! ### JSON values and a model of `JSON.parse`

`JSON.parse` is the browser's RFC 8259 parser; the model below implements
that grammar (objects, arrays, strings with the standard escapes, numbers,
`true`/`false`/`null`) with a fuel argument for totality.  `parseJson`
returns `none` exactly when `JSON.parse` would throw a `SyntaxError`. -/

inductive Json where
  | null
  | bool (b : Bool)
  | num (lexeme : String)
  | str (text : String)
  | arr (items : List Json)
  | obj (fields : List (String × Json))
deriving Repr, Inhabited

def jsonIsDigit (c : Char) : Bool := 47 < c.toNat && c.toNat < 58

def hexDigitVal (c : Char) : Option Nat :=
  let n := c.toNat
  if 48 ≤ n && n ≤ 57 then some (n - 48)
  else if 97 ≤ n && n ≤ 102 then some (n - 87)
  else if 65 ≤ n && n ≤ 70 then some (n - 55)
  else none

/-- Parse the body of a JSON string literal (after the opening quote). -/
def parseJsonString : Nat → List Char → Option (String × List Char)
  | 0, _ => none
  | _, [] => none
  | fuel + 1, c :: cs =>
    if c == '"' then some ("", cs)
    else if c == '\\' then
      match cs with
      | [] => none
      | e :: cs' =>
        let unescaped : Option (Char × List Char) :=
          if e == '"' then some ('"', cs')
          else if e == '\\' then some ('\\', cs')
          else if e == '/' then some ('/', cs')
          else if e == 'n' then some ('\n', cs')
          else if e == 't' then some ('\t', cs')
          else if e == 'r' then some ('\r', cs')
          else if e == 'b' then some ('\x08', cs')
          else if e == 'f' then some ('\x0c', cs')
          else if e == 'u' then
            match cs' with
            | h1 :: h2 :: h3 :: h4 :: rest =>
              match hexDigitVal h1, hexDigitVal h2, hexDigitVal h3, hexDigitVal h4 with
              | some a, some b, some c3, some d =>
                some (Char.ofNat (((a * 16 + b) * 16 + c3) * 16 + d), rest)
              | _, _, _, _ => none
            | _ => none
          else none
        match unescaped with
        | some (ch, rest) =>
          match parseJsonString fuel rest with
          | some (s, r) => some (⟨ch :: s.data⟩, r)
          | none => none
        | none => none
    else
      match parseJsonString fuel cs with
      | some (s, r) => some (⟨c :: s.data⟩, r)
      | none => none

def takeDigits : List Char → List Char × List Char
  | [] => ([], [])
  | c :: cs =>
    if !jsonIsDigit c then ([], c :: cs)
    else
      match takeDigits cs with
      | (ds, r) => (c :: ds, r)

/-- Parse a JSON number, returning its lexeme (values are never inspected
numerically by the embedded code). -/
def parseJsonNumber (l : List Char) : Option (String × List Char) :=
  let (neg, l1) := match l with
    | '-' :: rest => (['-'], rest)
    | _ => (([] : List Char), l)
  let (intPart, l2) := takeDigits l1
  if intPart.isEmpty then none
  else
    let (fracPart, l3) :=
      match l2 with
      | '.' :: rest =>
        let (ds, r) := takeDigits rest
        if ds.isEmpty then (none, l2) else (some ('.' :: ds), r)
      | _ => (none, l2)
    match fracPart with
    | none =>
      -- exponent part
      (match l2 with
       | e :: rest =>
         if e == 'e' || e == 'E' then
           let (sgn, r1) := match rest with
             | '+' :: r => (['+'], r)
             | '-' :: r => (['-'], r)
             | _ => (([] : List Char), rest)
           let (ds, r2) := takeDigits r1
           if ds.isEmpty then none else some (⟨neg ++ intPart ++ [e] ++ sgn ++ ds⟩, r2)
         else some (⟨neg ++ intPart⟩, l2)
       | [] => some (⟨neg ++ intPart⟩, l2))
    | some fp =>
      (match l3 with
       | e :: rest =>
         if e == 'e' || e == 'E' then
           let (sgn, r1) := match rest with
             | '+' :: r => (['+'], r)
             | '-' :: r => (['-'], r)
             | _ => (([] : List Char), rest)
           let (ds, r2) := takeDigits r1
           if ds.isEmpty then none
           else some (⟨neg ++ intPart ++ fp ++ [e] ++ sgn ++ ds⟩, r2)
         else some (⟨neg ++ intPart ++ fp⟩, l3)
       | [] => some (⟨neg ++ intPart ++ fp⟩, l3))

mutual

def parseJsonValue : Nat → List Char → Option (Json × List Char)
  | 0, _ => none
  | fuel + 1, l =>
    match dropLeadingWs l with
    | [] => none
    | c :: cs =>
      if c == '{' then parseJsonMembers fuel cs true []
      else if c == '[' then parseJsonElems fuel cs true []
      else if c == '"' then
        match parseJsonString (fuel + 1) cs with
        | some (s, r) => some (.str s, r)
        | none => none
      else if c == 't' then
        if ['r', 'u', 'e'].isPrefixOf cs then some (.bool true, cs.drop 3)
        else none
      else if c == 'f' then
        if ['a', 'l', 's', 'e'].isPrefixOf cs then some (.bool false, cs.drop 4)
        else none
      else if c == 'n' then
        if ['u', 'l', 'l'].isPrefixOf cs then some (.null, cs.drop 3)
        else none
      else
        match parseJsonNumber (c :: cs) with
        | some (lex, r) => some (.num lex, r)
        | none => none

/-- Object members after `{`; `first` is true before any member is read.
A `}` closes the object; otherwise a member (after a `,` unless first)
is read and the loop continues. -/
def parseJsonMembers (fuel : Nat) (l : List Char) (first : Bool)
    (acc : List (String × Json)) : Option (Json × List Char) :=
  match fuel with
  | 0 => none
  | fuel + 1 =>
    match dropLeadingWs l with
    | [] => none
    | c :: cs =>
      if c == '}' then some (.obj acc, cs)
      else
        let l1 : Option (List Char) :=
          if first then some (c :: cs)
          else if c == ',' then some cs
          else none
        match l1 with
        | none => none
        | some l1 =>
          match dropLeadingWs l1 with
          | '"' :: cs1 =>
            (match parseJsonString (fuel + 1) cs1 with
             | some (k, r1) =>
               (match dropLeadingWs r1 with
                | ':' :: r2 =>
                  (match parseJsonValue fuel r2 with
                   | some (v, r3) => parseJsonMembers fuel r3 false (acc ++ [(k, v)])
                   | none => none)
                | _ => none)
             | none => none)
          | _ => none

/-- Array elements after `[`; mirrors `parseJsonMembers`. -/
def parseJsonElems (fuel : Nat) (l : List Char) (first : Bool)
    (acc : List Json) : Option (Json × List Char) :=
  match fuel with
  | 0 => none
  | fuel + 1 =>
    match dropLeadingWs l with
    | [] => none
    | c :: cs =>
      if c == ']' then some (.arr acc, cs)
      else
        let l1 : Option (List Char) :=
          if first then some (c :: cs)
          else if c == ',' then some cs
          else none
        match l1 with
        | none => none
        | some l1 =>
          match parseJsonValue fuel l1 with
          | some (v, r) => parseJsonElems fuel r false (acc ++ [v])
          | none => none

end

/-- `JSON.parse`: parse one value and require only whitespace after it. -/
def parseJson (s : String) : Option Json :=
  match parseJsonValue (s.data.length + 1) s.data with
  | some (j, rest) => if dropLeadingWs rest = [] then some j else none
  | none => none

/-- Field lookup on a parsed JSON object.  `JSON.parse` keeps the last
occurrence of a duplicated key, hence the reversed search. -/
def jsonObjGet (ms : List (String × Json)) (k : String) : Option Json :=
  (ms.reverse.find? (fun p => p.1 == k)).map (·.2)

/-! ### `gptUtils.ts`: `parseGPTResponse` and `processFormWithGPT`

The V2 pipeline: the model response text is trimmed, an optional Markdown
code fence is stripped (regex `\x60\x60\x60(?:json)?\s*([\s\S]*?)\s*\x60\x60\x60`),
the remainder is fed to `JSON.parse`, the `mappings` array is extracted and
filtered against the known element identifiers.  Every failure inside the
`try` block is caught and turned into an empty mapping list. -/

structure FormElementV2 where
  idx : String
  otherAttributesMap : String := ""
deriving Repr, DecidableEq

structure MappingV2 where
  idx : String
  value : String
deriving Repr, DecidableEq

def stripTrailingWs (l : List Char) : List Char := (dropLeadingWs l.reverse).reverse

/-- The code-fence regex of `parseGPTResponse`.  A match starts at the first
fence that has a later closing fence; the optional literal `json` and the
greedy `\s*` are consumed, and the lazy group ends before the whitespace run
preceding the next fence.  `none` when the regex does not match. -/
def extractCodeFence (l : List Char) : Option (List Char) :=
  match findSubstrIdx "```".data l with
  | none => none
  | some i =>
    let after := l.drop (i + 3)
    let afterTag := if "json".data.isPrefixOf after then after.drop 4 else after
    let body := dropLeadingWs afterTag
    match findSubstrIdx "```".data body with
    | none => none
    | some j => some (stripTrailingWs (body.take j))

/-- `let jsonText = responseText.trim()` plus the code-fence extraction. -/
def jsonTextOf (responseText : String) : String :=
  let t := jsTrim responseText
  match extractCodeFence t.data with
  | some body => ⟨body⟩
  | none => t

/-- `parseGPTResponse` of `gptUtils.ts`.  The entire body is wrapped in
`try { ... } catch { return [] }`: an unparsable response, a parsed value
without a `mappings` array, and a `null` array item (whose `.idx` access
throws) all yield `[]`, never an error. -/
def parseGPTResponse (responseText : String) (elements : List FormElementV2) :
    List MappingV2 :=
  let jsonText := jsonTextOf responseText
  match parseJson jsonText with
  | none => []
  | some data =>
    let mappingsField : Option Json :=
      match data with
      | .obj ms => jsonObjGet ms "mappings"
      | _ => none
    match mappingsField with
    | some (.arr items) =>
      if items.any (fun j => match j with | .null => true | _ => false) then []
      else
        items.filterMap fun j =>
          match j with
          | .obj ms =>
            (match jsonObjGet ms "idx", jsonObjGet ms "value" with
             | some (.str i), some (.str v) =>
               if elements.any (fun e => e.idx == i) then some ⟨i, v⟩ else none
             | _, _ => none)
          | _ => none
    | _ => []

structure GPTResponse where
  success : Bool
  mappings : List MappingV2
  error : Option String := none
deriving Repr, DecidableEq

/-- `processFormWithGPT` of `gptUtils.ts`, with the HTTP call abstracted as
its outcome: `.error msg` when `callGPTAPI` rejects (non-2xx), `.ok text`
when it resolves with the model's response text.  Note that a resolved call
always yields `success := true`, because `parseGPTResponse` swallows its own
errors. -/
def processFormWithGPTV2 (apiKey : String) (elements : List FormElementV2)
    (apiOutcome : Except String String) : GPTResponse :=
  if apiKey = "" then ⟨false, [], some "API key is not set"⟩
  else
    match apiOutcome with
    | .error msg => ⟨false, [], some msg⟩
    | .ok text => ⟨true, parseGPTResponse text elements, none⟩

/-- The `{ total, successful, failed }` aggregate of the V2 content script. -/
structure FillResults where
  total : Nat
  successful : Nat
  failed : Nat
deriving Repr, DecidableEq

/-- Outcome delivered to `sendResponse` by the background script. -/
structure BgOutcome where
  success : Bool
  error : Option String := none
  result : Option FillResults := none
deriving Repr, DecidableEq

/-- The tail of the background script's `handleFillForms` (part after the
GPT call): `if (!response.success || response.mappings.length === 0) throw
new Error("No fields could be filled")`, with the `catch` turning the throw
into `{success: false, error}`; otherwise the mappings are sent to the
content script and its results are returned with `success: true`. -/
def bgAfterGPT (resp : GPTResponse) (doFill : List MappingV2 → FillResults) :
    BgOutcome :=
  if !resp.success || resp.mappings.length == 0 then
    ⟨false, some "No fields could be filled", none⟩
  else ⟨true, none, some (doFill resp.mappings)⟩

/-! ### `gptProcessor.js`: `processGPTMappingResponse`

The V1 pipeline extracts the first-to-last bracket slice (regex
`\[(.|\n)*\]`), parses it, and converts each item to the legacy mapping
shape; every parse failure yields `[]` with only a console message. -/

structure JMapping where
  htmlElementId : String := ""
  value : String := ""
  label : String := ""
  formId : String := ""
  typ : String := ""
deriving Repr, DecidableEq

/-- Model of `content.match(/\[(.|\n)*\]/m)`: the greedy group makes the
match run from the first `[` that has any later `]` to the last `]` of the
whole text. -/
def extractBracketSlice (l : List Char) : Option (List Char) :=
  let closes := (List.range l.length).filter fun i => l.get? i = some ']'
  match (List.range l.length).find? (fun i => l.get? i = some '[' && closes.any (i < ·)) with
  | none => none
  | some i =>
    match closes.getLast? with
    | none => none
    | some j => some ((l.drop i).take (j - i + 1))

/-- JS truthiness of a parsed JSON value (`x || ""` keeps `x` iff truthy).
A numeric lexeme is falsy iff its mantissa digits are all zero. -/
def jsonFalsy : Json → Bool
  | .null => true
  | .bool b => !b
  | .str s => s = ""
  | .num lex => lex.data.all fun c => c ∈ ['-', '+', '0', '.', 'e', 'E']
  | .arr _ => false
  | .obj _ => false

/-- JS string coercion as it would reach `element.value = value` for the
JSON value types a model response can contain. -/
def jsonToStr : Json → String
  | .null => "null"
  | .bool b => if b then "true" else "false"
  | .str s => s
  | .num lex => lex
  | .arr _ => ""
  | .obj _ => ""

/-- `mapping.f || ""` for a field of a parsed array item. -/
def jsonFieldOrEmpty (ms : List (String × Json)) (k : String) : String :=
  match jsonObjGet ms k with
  | none => ""
  | some v => if jsonFalsy v then "" else jsonToStr v

/-- `processGPTMappingResponse` of `gptProcessor.js`.  `content` is
`response.choices?.[0]?.message?.content` (`none` when absent).  A `null`
array item would make the final `.map` throw outside the `try` block; the
caller's `catch` turns that into `[]` as well, which is how it is modelled
here. -/
def processGPTMappingResponse (content : Option String) : List JMapping :=
  match content with
  | none => []
  | some content =>
    match extractBracketSlice content.data with
    | none => []
    | some slice =>
      match parseJson ⟨slice⟩ with
      | none => []
      | some j =>
        let mappings := match j with | .arr xs => xs | _ => []
        if mappings.any (fun x => match x with | .null => true | _ => false) then []
        else
          mappings.map fun m =>
            match m with
            | .obj ms =>
              { htmlElementId := jsonFieldOrEmpty ms "id"
                value := jsonFieldOrEmpty ms "value"
                label := jsonFieldOrEmpty ms "label"
                formId := jsonFieldOrEmpty ms "formId"
                typ := jsonFieldOrEmpty ms "type" }
            | _ => {}

/-! ### `gptProcessor.js`: the `EnhancedCache`

A JS `Map` is an association list with unique keys that replaces in place
on overwrite and appends new keys at the end; `accessOrder` is the LRU
queue (front = least recently accessed).  `Date.now()` is the explicit
`now` argument. -/

def CACHE_MAX_SIZE : Nat := 50

structure CacheEntry (α : Type) where
  data : α
  expiresAt : Nat
deriving Repr, DecidableEq

structure EnhancedCache (α : Type) where
  cache : List (String × CacheEntry α) := []
  accessOrder : List String := []
deriving Repr, DecidableEq

namespace EnhancedCache

variable {α : Type}

/-- `Map.prototype.get`. -/
def mapGet : List (String × CacheEntry α) → String → Option (CacheEntry α)
  | [], _ => none
  | (ka, va) :: rest, k => if ka = k then some va else mapGet rest k

/-- `Map.prototype.set`: replace in place, or append a new key at the end. -/
def mapSet : List (String × CacheEntry α) → String → CacheEntry α →
    List (String × CacheEntry α)
  | [], k, v => [(k, v)]
  | (ka, va) :: rest, k, v =>
    if ka = k then (k, v) :: rest else (ka, va) :: mapSet rest k v

/-- `Map.prototype.delete` (a `Map` holds each key at most once). -/
def mapDelete : List (String × CacheEntry α) → String → List (String × CacheEntry α)
  | [], _ => []
  | (ka, va) :: rest, k => if ka = k then rest else (ka, va) :: mapDelete rest k

/-- `indexOf` + `splice(index, 1)`: remove the first occurrence, if any. -/
def eraseStr (k : String) : List String → List String
  | [] => []
  | x :: rest => if x = k then rest else x :: eraseStr k rest

/-- `updateAccessTime`: move `key` to the most-recently-used position. -/
def updateAccessTime (c : EnhancedCache α) (k : String) : EnhancedCache α :=
  { c with accessOrder := eraseStr k c.accessOrder ++ [k] }

/-- `delete`: drop the entry and its access-order slot. -/
def deleteKey (c : EnhancedCache α) (k : String) : EnhancedCache α :=
  { cache := mapDelete c.cache k, accessOrder := eraseStr k c.accessOrder }

/-- `get`: a hit refreshes the access order; an expired hit is purged and
reported as absent. -/
def get (c : EnhancedCache α) (k : String) (now : Nat) :
    Option α × EnhancedCache α :=
  match mapGet c.cache k with
  | none => (none, c)
  | some entry =>
    let c1 := updateAccessTime c k
    if entry.expiresAt < now then (none, deleteKey c1 k)
    else (some entry.data, c1)

def size (c : EnhancedCache α) : Nat := c.cache.length

/-- `has` / membership of a key. -/
def hasKey (c : EnhancedCache α) (k : String) : Bool := (mapGet c.cache k).isSome

/-- `evictLRU`: shift the front of the access order and delete that key. -/
def evictLRU (c : EnhancedCache α) : EnhancedCache α :=
  match c.accessOrder with
  | [] => c
  | lru :: rest => { cache := mapDelete c.cache lru, accessOrder := rest }

/-- `set`: evict the LRU entry first when inserting a new key at capacity;
then store with `expiresAt = now + expiration` and refresh the access
order. -/
def set (c : EnhancedCache α) (k : String) (data : α)
    (expiration now : Nat) : EnhancedCache α :=
  let c1 := if CACHE_MAX_SIZE ≤ size c && !hasKey c k then evictLRU c else c
  let c2 := { c1 with cache := mapSet c1.cache k ⟨data, now + expiration⟩ }
  updateAccessTime c2 k

/-- Keys of the underlying map, in insertion order. -/
def keys (c : EnhancedCache α) : List String := c.cache.map Prod.fst

/-- The representation invariant every reachable cache satisfies: the
access order is duplicate-free, the map's keys are duplicate-free, and the
two hold the same key set. -/
def Wf (c : EnhancedCache α) : Prop :=
  c.accessOrder.Nodup ∧ (keys c).Nodup ∧
    (∀ k ∈ c.accessOrder, k ∈ keys c) ∧ ∀ k ∈ keys c, k ∈ c.accessOrder

instance (c : EnhancedCache String) : Decidable (Wf c) := by
  unfold Wf; infer_instance

end EnhancedCache

/-- A small well-formed cache used to witness the cache theorems: keys
`"a"` (expires at 10) and `"b"` (expires at 2), accessed in that order. -/
def cacheExample : EnhancedCache String :=
  { cache := [("a", ⟨"x", 10⟩), ("b", ⟨"y", 2⟩)], accessOrder := ["a", "b"] }

/-! ### A flat DOM model

The page DOM is modelled as a list of nodes in pre-order (document
order): a node's parent always precedes it, which `Doc.Wf` states.  Each
node carries the attributes and layout facts the embedded functions read;
`visible` is the verdict of the `isElementVisible` oracle (a function of
live layout, carried as data), and `rTop`/`rLeft` are the
`getBoundingClientRect` coordinates used by the proximity heuristics. -/

structure DNode where
  parent : Option Nat := none
  /-- lowercase tag name; `"#text"` for text nodes. -/
  tag : String := "div"
  idAttr : String := ""
  nameAttr : String := ""
  /-- the `type` attribute; also `element.type` for inputs. -/
  typeAttr : String := ""
  /-- the current `value` property. -/
  valueAttr : String := ""
  forAttr : String := ""
  /-- the `maskplaceholder` attribute. -/
  maskAttr : String := ""
  placeholderAttr : String := ""
  requiredAttr : Bool := false
  checked : Bool := false
  classes : List String := []
  role : String := ""
  ariaModal : Bool := false
  /-- own text of a `"#text"` node. -/
  textOwn : String := ""
  /-- verdict of the `isElementVisible` oracle on this node. -/
  visible : Bool := true
  rTop : Int := 0
  rLeft : Int := 0
deriving Repr, DecidableEq, Inhabited

structure Doc where
  nodes : List DNode
deriving Repr, DecidableEq, Inhabited

namespace Doc

def node? (d : Doc) (i : Nat) : Option DNode := d.nodes.get? i

def tagOf (d : Doc) (i : Nat) : String := ((d.node? i).map (·.tag)).getD ""

def idOf (d : Doc) (i : Nat) : String := ((d.node? i).map (·.idAttr)).getD ""

def nameOf (d : Doc) (i : Nat) : String := ((d.node? i).map (·.nameAttr)).getD ""

def typeAttrOf (d : Doc) (i : Nat) : String := ((d.node? i).map (·.typeAttr)).getD ""

def valueOf (d : Doc) (i : Nat) : String := ((d.node? i).map (·.valueAttr)).getD ""

def forOf (d : Doc) (i : Nat) : String := ((d.node? i).map (·.forAttr)).getD ""

def isElem (d : Doc) (i : Nat) : Bool :=
  match d.node? i with
  | some n => n.tag ≠ "#text"
  | none => false

def parentOf (d : Doc) (i : Nat) : Option Nat := (d.node? i).bind (·.parent)

/-- Chain of ancestors (nearest first), driven by fuel for totality. -/
def ancestorsAux (d : Doc) : Nat → Nat → List Nat
  | 0, _ => []
  | fuel + 1, i =>
    match d.parentOf i with
    | none => []
    | some p => p :: ancestorsAux d fuel p

def ancestors (d : Doc) (i : Nat) : List Nat := ancestorsAux d d.nodes.length i

/-- `anc` is a proper ancestor of `i`. -/
def isDescOf (d : Doc) (i anc : Nat) : Bool := (d.ancestors i).contains anc

/-- Pre-order well-formedness: every parent pointer goes strictly
backwards. -/
def wfAt (d : Doc) (i : Nat) : Bool :=
  match d.node? i with
  | none => true
  | some n =>
    match n.parent with
    | none => true
    | some p => decide (p < i)

def Wf (d : Doc) : Prop := ∀ i, d.wfAt i = true

instance (d : Doc) : Decidable d.Wf :=
  decidable_of_iff ((List.range d.nodes.length).all d.wfAt = true) (by
    constructor
    · intro h i
      by_cases hi : i < d.nodes.length
      · exact List.all_eq_true.mp h i (List.mem_range.mpr hi)
      · unfold Doc.wfAt Doc.node?
        rw [List.get?_eq_none.mpr (le_of_not_lt hi)]
    · intro h
      exact List.all_eq_true.mpr fun i _ => h i)

/-- Indices of the children of `i`, in document order. -/
def childrenOf (d : Doc) (i : Nat) : List Nat :=
  (List.range d.nodes.length).filter fun j => d.parentOf j = some i

/-- `element.previousElementSibling`: nearest preceding element child of
the same parent. -/
def prevElemSibling (d : Doc) (i : Nat) : Option Nat :=
  match d.parentOf i with
  | none => none
  | some p => ((d.childrenOf p).filter fun j => j < i && d.isElem j).getLast?

/-- `root.querySelectorAll(...)` universe: all proper descendants of
`root`, in document order. -/
def descendantsOf (d : Doc) (root : Nat) : List Nat :=
  (List.range d.nodes.length).filter fun j => d.isDescOf j root

/-- `node.textContent`: the concatenated text of the subtree (self
included), in document order. -/
def textContentOf (d : Doc) (i : Nat) : String :=
  ((List.range d.nodes.length).filter fun j => j == i || d.isDescOf j i).foldl
    (fun acc j =>
      acc ++ (match d.node? j with
        | some n => if n.tag = "#text" then n.textOwn else ""
        | none => ""))
    ""

/-- Is the node inside a `<form>` (for the `:not(form *)` selectors)? -/
def insideForm (d : Doc) (i : Nat) : Bool :=
  (d.ancestors i).any fun a => d.tagOf a = "form"

def isBody (d : Doc) (i : Nat) : Bool := d.tagOf i = "body"

/-- `document.getElementById` (an empty id never matches). -/
def getElementById (d : Doc) (s : String) : Option Nat :=
  if s = "" then none
  else (List.range d.nodes.length).find? fun j => d.isElem j && d.idOf j = s

/-- All `<label>` elements of the document, in document order
(`document.querySelectorAll('label')`). -/
def allLabels (d : Doc) : List Nat :=
  (List.range d.nodes.length).filter fun j => d.tagOf j = "label"

end Doc

/-- Tag test for the `'input, select, textarea'` selector. -/
def isFieldTag (t : String) : Bool := t = "input" || t = "select" || t = "textarea"

namespace Doc

/-- First `input`/`select`/`textarea` descendant of `root`
(`root.querySelectorAll('input, select, textarea')[0]`). -/
def firstFieldIn (d : Doc) (root : Nat) : Option Nat :=
  (d.descendantsOf root).find? fun j => isFieldTag (d.tagOf j)

/-- `INPUT_SELECTORS.STANDALONE_COMBINED` of the V1 constants:
`input:not([type="submit"]):not([type="button"]):not([type="reset"]):not(form *),
select:not(form *), textarea:not(form *), div[id^='Select']:not(form *)`. -/
def matchesStandalone (d : Doc) (j : Nat) : Bool :=
  match d.node? j with
  | none => false
  | some n =>
    !(d.insideForm j) &&
      ((n.tag = "input" && n.typeAttr ≠ "submit" && n.typeAttr ≠ "button" &&
          n.typeAttr ≠ "reset")
        || n.tag = "select" || n.tag = "textarea"
        || (n.tag = "div" && jsStartsWith n.idAttr "Select"))

/-- `INPUT_SELECTORS.FORM_INPUTS_COMBINED` of the V1 constants (same
selectors without the `:not(form *)` restriction). -/
def matchesFormInputs (d : Doc) (j : Nat) : Bool :=
  match d.node? j with
  | none => false
  | some n =>
    (n.tag = "input" && n.typeAttr ≠ "submit" && n.typeAttr ≠ "button" &&
        n.typeAttr ≠ "reset")
      || n.tag = "select" || n.tag = "textarea"
      || (n.tag = "div" && jsStartsWith n.idAttr "Select")

/-! ### `formUtils.js`: `findCommonContainer` and `groupInputsByContainer` -/

/-- One iteration of `findCommonContainer`'s ascent: the loop stops on a
null container or on `document.body`, otherwise climbs one parent. -/
def ccAdvance (d : Doc) : Option Nat → Option Nat
  | none => none
  | some x => if d.isBody x then some x else d.parentOf x

/-- `findCommonContainer`: climb at most two levels above the parent
(stopping at `document.body`), falling back to the immediate parent when
the ascent reached null or the body.  `none` models the `null` container a
parentless element would produce. -/
def findCommonContainer (d : Doc) (i : Nat) : Option Nat :=
  let c0 := d.parentOf i
  let c2 := ccAdvance d (ccAdvance d c0)
  match c2 with
  | none => d.parentOf i
  | some x => if d.isBody x then d.parentOf i else some x

/-- The loop body of `groupInputsByContainer`: skip processed inputs, find
the common container, collect every standalone-selector match inside it,
mark them processed, and emit the group.  `none` models the exception a
null container would raise. -/
def groupsGo (d : Doc) : List Nat → List Nat → Option (List (Nat × List Nat))
  | [], _ => some []
  | i :: rest, processed =>
    if i ∈ processed then groupsGo d rest processed
    else
      match d.findCommonContainer i with
      | none => none
      | some c =>
        let containerInputs := (d.descendantsOf c).filter fun j => d.matchesStandalone j
        match groupsGo d rest (processed ++ containerInputs) with
        | some gs => some ((c, containerInputs) :: gs)
        | none => none

/-- `groupInputsByContainer` over the model: the produced groups, each a
container index with the standalone inputs found inside it. -/
def groupInputsByContainer (d : Doc) (inputs : List Nat) :
    Option (List (Nat × List Nat)) :=
  groupsGo d inputs []

end Doc

/-- Body > div > (div > div > div > input#a) and (input#b): the document on
which `groupInputsByContainer` is exercised.  Input 6 (`#a`) sits four
levels deep, input 7 (`#b`) is a direct child of node 2. -/
def docGroupsExample : Doc := ⟨[
  { tag := "html" },
  { tag := "body", parent := some 0 },
  { tag := "div", parent := some 1 },
  { tag := "div", parent := some 2 },
  { tag := "div", parent := some 3 },
  { tag := "div", parent := some 4 },
  { tag := "input", parent := some 5, idAttr := "a" },
  { tag := "input", parent := some 2, idAttr := "b" }
]⟩

/-! ### `formUtils.js`: type-dispatched writes

`fillElement` and its helpers operate on one element; `JSElem` carries the
element state they read and write.  `classes` models `classList`, `events`
records the event types dispatched on the element in order, and the
custom-dropdown fields model the `div[id^='Select']` convention. -/

structure SOption where
  value : String
  text : String
deriving Repr, DecidableEq

/-- The JS values a mapping's `value` can carry into `fillElement`. -/
inductive JSVal where
  | b (x : Bool)
  | s (x : String)
  | n (x : Int)
deriving Repr, DecidableEq

/-- JS strict equality (`===`) on the primitives above (also the
`SameValueZero` used by `Array.prototype.includes`). -/
def jsValEq : JSVal → JSVal → Bool
  | .b x, .b y => x == y
  | .s x, .s y => x == y
  | .n x, .n y => x == y
  | _, _ => false

/-- `String(value)` / `value.toString()` coercion. -/
def jsValToString : JSVal → String
  | .b x => if x then "true" else "false"
  | .s x => x
  | .n x => toString x

/-- JS truthiness of the primitives. -/
def jsValTruthy : JSVal → Bool
  | .b x => x
  | .s x => x ≠ ""
  | .n x => x ≠ 0

/-- `typeof value === "string" ? value.toLowerCase() : value`. -/
def jsValToLower : JSVal → JSVal
  | .s x => .s (jsToLower x)
  | v => v

def digitsToNat (ds : List Char) : Nat :=
  ds.foldl (fun a c => a * 10 + (c.toNat - '0'.toNat)) 0

/-- `parseInt(value)`: optional sign then leading decimal digits, `none`
for `NaN`. -/
def jsParseInt (s : String) : Option Int :=
  let l := dropLeadingWs s.data
  let (sign, l1) : Int × List Char :=
    match l with
    | '-' :: r => (-1, r)
    | '+' :: r => (1, r)
    | _ => (1, l)
  let (ds, _) := takeDigits l1
  if ds.isEmpty then none else some (sign * (digitsToNat ds : Int))

structure JSElem where
  /-- lowercase tag name. -/
  tag : String := "input"
  /-- `element.type`. -/
  typ : String := ""
  idAttr : String := ""
  value : String := ""
  checked : Bool := false
  classes : List String := []
  /-- event types dispatched on this element so far, in order. -/
  events : List String := []
  /-- options of a `<select>`: `{value, textContent}`. -/
  options : List SOption := []
  /-- the `maskplaceholder` attribute (empty when absent). -/
  maskAttr : String := ""
  /-- untrimmed text of `getAssociatedLabel(element)`, when a label exists. -/
  labelText : Option String := none
  /-- for radios: `element.name` is nonempty. -/
  hasName : Bool := false
  /-- for radios: the values of `document.getElementsByName(name)`, in DOM
  order. -/
  groupValues : List String := []
  /-- for radios: this element's index within that group. -/
  groupPos : Nat := 0
  contentEditable : Bool := false
  /-- whether `element.value` is defined (for unknown element kinds). -/
  hasValueProp : Bool := true
  textContent : String := ""
  /-- custom dropdown: value of the contained hidden input, when present. -/
  hiddenValue : Option String := none
  /-- custom dropdown: text of the visible display element. -/
  displayText : String := ""
  /-- custom dropdown: texts of the clickable option elements. -/
  divOptionTexts : List String := []
  /-- custom dropdown: index of the option that was clicked, if any. -/
  clickedOption : Option Nat := none
deriving Repr, DecidableEq

/-- `triggerEvents`: dispatch `input` then `change` with `bubbles: true`. -/
def triggerEventsOn (el : JSElem) : JSElem :=
  { el with events := el.events ++ ["input", "change"] }

/-- `highlightFilledField`: `classList.add("quickfill-filled")` (idempotent,
as `classList.add` is). -/
def highlightOn (el : JSElem) : JSElem :=
  { el with classes :=
      if el.classes.contains "quickfill-filled" then el.classes
      else el.classes ++ ["quickfill-filled"] }

/-! #### `fillSelectElement` (three-tier option matching) -/

/-- `value.toLowerCase().replace(/[^a-z0-9]/g, '')`. -/
def normalizeText (t : String) : String :=
  ⟨(jsToLower t).data.filter fun ch =>
    ('a' ≤ ch && ch ≤ 'z') || ('0' ≤ ch && ch ≤ '9')⟩

/-- Tier 1: exact case-insensitive equality against the option's `value` or
trimmed text. -/
def selTier1 (value : String) (o : SOption) : Bool :=
  jsToLower o.value == jsToLower value || jsToLower (jsTrim o.text) == jsToLower value

/-- Tier 2: substring containment, in either direction, against the trimmed
option text. -/
def selTier2 (value : String) (o : SOption) : Bool :=
  jsIncludes (jsToLower (jsTrim o.text)) (jsToLower value)
    || jsIncludes (jsToLower value) (jsToLower (jsTrim o.text))

/-- Tier 3: normalized comparison (equality or containment either way). -/
def selTier3 (value : String) (o : SOption) : Bool :=
  let normalizedOption := normalizeText (jsTrim o.text)
  let normalizedValue := normalizeText value
  normalizedOption == normalizedValue
    || jsIncludes normalizedOption normalizedValue
    || jsIncludes normalizedValue normalizedOption

/-- A `for ... break` scan over the options. -/
def selScan (p : SOption → Bool) : List SOption → Option SOption
  | [] => none
  | o :: rest => if p o then some o else selScan p rest

/-- `fillSelectElement`: three sequential scans with a `matched` flag; the
first scan that matches assigns `element.value` to the matching option's
value and breaks.  Returns the new `element.value` and whether any tier
matched. -/
def fillSelectElement (opts : List SOption) (cur value : String) : String × Bool :=
  match selScan (selTier1 value) opts with
  | some o => (o.value, true)
  | none =>
    match selScan (selTier2 value) opts with
    | some o => (o.value, true)
    | none =>
      -- the third scan is guarded by `typeof value === 'string'`,
      -- which always holds for a `String` value
      match selScan (selTier3 value) opts with
      | some o => (o.value, true)
      | none => (cur, false)

/-- `fillSelectElement` as invoked with an arbitrary JS value: a non-string
value with at least one option throws (`value.toLowerCase` is undefined) on
the first loop iteration before any assignment, which `fillElement`'s
`catch` turns into `false`. -/
def fillSelectAttempt (opts : List SOption) (cur : String) :
    JSVal → Except Unit (String × Bool)
  | .s v => .ok (fillSelectElement opts cur v)
  | _ => if opts.isEmpty then .ok (cur, false) else .error ()

/-! #### `fillCheckboxOrRadio` -/

def positiveValues : List JSVal :=
  [.b true, .s "true", .s "1", .s "yes", .s "sim", .s "verdadeiro",
    .s "checked", .s "selected", .s "on"]

def negativeValues : List JSVal :=
  [.b false, .s "false", .s "0", .s "no", .s "não", .s "nao", .s "falso",
    .s "unchecked", .s "unselected", .s "off"]

def agreementTerms : List String :=
  ["agree", "accept", "consent", "terms", "policy", "privacy",
    "newsletter", "email", "subscri", "offers", "news"]

def listIncludesJS (l : List JSVal) (v : JSVal) : Bool := l.any (jsValEq · v)

/-- The checkbox branch of `fillCheckboxOrRadio`. -/
def fillCheckbox (el : JSElem) (value : JSVal) : JSElem :=
  let valueLower := jsValToLower value
  if listIncludesJS positiveValues valueLower then { el with checked := true }
  else if listIncludesJS negativeValues valueLower then { el with checked := false }
  else
    let labelText :=
      match el.labelText with
      | some t => jsToLower (jsTrim t)
      | none => ""
    match value with
    | .s v =>
      if labelText ≠ "" then
        if jsIncludes (jsToLower v) labelText || jsIncludes labelText (jsToLower v) then
          { el with checked := true }
        else if agreementTerms.any (fun term => jsIncludes labelText term) then
          { el with checked := true }
        else el
      else el
    | _ => el

/-- The `shouldCheck` closure of the radio branch. -/
def radioShouldCheck (el : JSElem) (value : JSVal) : Bool :=
  -- simple boolean values
  if jsValEq value (.b true) || jsValEq value (.s "true") || jsValEq value (.s "1")
      || (match value with | .s v => jsToLower v == "yes" | _ => false) then true
  -- numbered values: element.value && value && element.value === value.toString()
  else if el.value ≠ "" && jsValTruthy value && el.value == jsValToString value then true
  -- Pessoa Física / Jurídica synonyms for radio values "1" and "2"
  else if el.value == "1" &&
      (match value with
       | .s v => jsIncludes (jsToLower v) "física" || jsIncludes (jsToLower v) "fisica"
           || jsToLower v == "pf"
       | _ => false) then true
  else if el.value == "2" &&
      (match value with
       | .s v => jsIncludes (jsToLower v) "jurídica" || jsIncludes (jsToLower v) "juridica"
           || jsToLower v == "pj"
       | _ => false) then true
  -- element.value === value
  else if (match value with | .s v => el.value == v | _ => false) then true
  -- label matches, including the gender synonym table
  else if (match el.labelText, value with
    | some lt, .s v =>
      let labelText := jsToLower (jsTrim lt)
      let valueLower := jsToLower v
      labelText == valueLower || jsIncludes labelText valueLower
        || jsIncludes valueLower labelText
        || ((jsIncludes labelText "male" || jsIncludes labelText "homem"
              || labelText == "m")
            && (valueLower == "male" || valueLower == "homem" || valueLower == "m"))
        || ((jsIncludes labelText "female" || jsIncludes labelText "mulher"
              || labelText == "f")
            && (valueLower == "female" || valueLower == "mulher" || valueLower == "f"))
    | _, _ => false) then true
  -- 1-based ordinal within the radio group
  else if el.hasName && el.groupValues.length > 1 &&
      (match value with
       | .n x => x == (el.groupPos : Int) + 1
       | .s v =>
         (match jsParseInt v with
          | some x => x == (el.groupPos : Int) + 1
          | none => false)
       | _ => false) then true
  else false

/-- `fillCheckboxOrRadio`: checkbox canonicalization or radio matching; a
checked radio dispatches events immediately (and `fillElement` dispatches
again afterwards, as the source does). -/
def fillCheckboxOrRadio (el : JSElem) (value : JSVal) : JSElem :=
  if el.typ == "checkbox" then fillCheckbox el value
  else if el.typ == "radio" then
    if radioShouldCheck el value then triggerEventsOn { el with checked := true }
    else el
  else el

/-! #### `fillInputElement` (text/date writes) -/

/-- `getDate()` / `getMonth() + 1` / `getFullYear()` of a parsed `Date`. -/
structure JsDate where
  year : Nat
  month : Nat
  day : Nat
deriving Repr, DecidableEq

/-- The JS `Date` engine, abstracted: `parseToISO` is
`x => new Date(x).toISOString().split("T")[0]` (`none` for an invalid
date), `parseToLocal` reads the local-time components back. -/
structure DateEnv where
  parseToISO : String → Option String
  parseToLocal : String → Option JsDate

/-- `/^\d{2}\/\d{2}\/\d{4}$/.test(value)`. -/
def reDDMMYYYY (s : String) : Bool :=
  match s.data with
  | [a, b, s1, c, d, s2, e, f, g, h] =>
    a.isDigit && b.isDigit && s1 == '/' && c.isDigit && d.isDigit && s2 == '/'
      && e.isDigit && f.isDigit && g.isDigit && h.isDigit
  | _ => false

/-- `/^\d{4}-\d{2}-\d{2}$/.test(value)`. -/
def reISO (s : String) : Bool :=
  match s.data with
  | [y1, y2, y3, y4, s1, m1, m2, s2, d1, d2] =>
    y1.isDigit && y2.isDigit && y3.isDigit && y4.isDigit && s1 == '-'
      && m1.isDigit && m2.isDigit && s2 == '-' && d1.isDigit && d2.isDigit
  | _ => false

def digitRun (p : String) (lo hi : Nat) : Bool :=
  decide (lo ≤ p.data.length) && decide (p.data.length ≤ hi) && p.data.all Char.isDigit

/-- `/^\d{1,2}\/\d{1,2}\/\d{4}$/.test(value)` (US-style slashes). -/
def reMDY (s : String) : Bool :=
  match jsSplitChar '/' s with
  | [p0, p1, p2] => digitRun p0 1 2 && digitRun p1 1 2 && digitRun p2 4 4
  | _ => false

/-- `` `${day}/${month}/${year}` `` with `padStart(2, '0')` on day and
month. -/
def fmtDDMMYYYY (dt : JsDate) : String :=
  pad2 dt.day ++ "/" ++ pad2 dt.month ++ "/" ++ toString dt.year

/-- The masked-date branch of `fillInputElement`
(`maskplaceholder="dd/mm/yyyy"`): pass `DD/MM/YYYY` through, rearrange
`YYYY-MM-DD`, otherwise parse-and-reformat, falling back to the raw string
(the `catch` assigns `element.value = value`). -/
def maskedDateWrite (parseToLocal : String → Option JsDate) (value : String) :
    String :=
  if reDDMMYYYY value then value
  else if reISO value then
    let parts := jsSplitChar '-' value
    let year := parts.getD 0 ""
    let month := parts.getD 1 ""
    let day := parts.getD 2 ""
    day ++ "/" ++ month ++ "/" ++ year
  else
    match parseToLocal value with
    | some dt => fmtDDMMYYYY dt
    | none => value

/-- The `type="date"` branch: all three format cases feed `new Date` (the
`DD/MM/YYYY` case after rearranging to `YYYY-MM-DD`) and write the ISO day
on success; the `catch` writes the raw value. -/
def dateInputWrite (parseToISO : String → Option String) (value : String) :
    String :=
  let arg :=
    if reDDMMYYYY value then
      let parts := jsSplitChar '/' value
      (parts.getD 2 "") ++ "-" ++ (parts.getD 1 "") ++ "-" ++ (parts.getD 0 "")
    else value
  match parseToISO arg with
  | some iso => iso
  | none => value

/-- `fillInputElement`. -/
def fillInputElement (env : DateEnv) (el : JSElem) (value : String) : JSElem :=
  if el.typ == "date" && value ≠ "" then
    { el with value := dateInputWrite env.parseToISO value }
  else if el.maskAttr == "dd/mm/yyyy" then
    { el with value := maskedDateWrite env.parseToLocal value }
  else { el with value := value }

/-! #### `fillElement` -/

/-- `fillElement`: type-dispatched write returning the success flag and the
updated element.  The whole body is inside `try { ... } catch { return
false }`; the only modelled throw is `value.toLowerCase()` on a non-string
value (the custom-dropdown and select paths), and a failed `option.click()`
inside the custom-dropdown loop is not modelled (the source catches it
per-option and carries on). -/
def fillElement (env : DateEnv) (el : JSElem) (value : JSVal) : Bool × JSElem :=
  let tagName := jsToLower el.tag
  let typ := jsToLower el.typ
  if tagName == "div" && el.idAttr ≠ "" && jsStartsWith el.idAttr "Select" then
    match el.hiddenValue with
    | none => (false, el)
    | some _ =>
      let el1 := { el with hiddenValue := some (jsValToString value),
                           displayText := jsValToString value }
      match value with
      | .s v =>
        let clickIdx := (List.range el1.divOptionTexts.length).find? fun i =>
          let optionText := jsTrim (el1.divOptionTexts.getD i "")
          jsToLower optionText == jsToLower v
            || jsIncludes (jsToLower optionText) (jsToLower v)
            || jsIncludes (jsToLower v) (jsToLower optionText)
        let el2 := { el1 with clickedOption := clickIdx }
        (true, triggerEventsOn (highlightOn el2))
      | _ => (false, el1)
  else if tagName == "select" then
    match fillSelectAttempt el.options el.value value with
    | .error _ => (false, el)
    | .ok (v1, _) => (true, triggerEventsOn (highlightOn { el with value := v1 }))
  else if typ == "checkbox" || typ == "radio" then
    (true, triggerEventsOn (highlightOn (fillCheckboxOrRadio el value)))
  else if tagName == "textarea" ||
      (tagName == "input" &&
        ["text", "email", "number", "tel", "url", "password", "date",
          "hidden"].contains typ) then
    (true, triggerEventsOn (highlightOn (fillInputElement env el (jsValToString value))))
  else if el.contentEditable then
    (true, triggerEventsOn (highlightOn { el with textContent := jsValToString value }))
  else if el.hasValueProp then
    (true, triggerEventsOn (highlightOn { el with value := jsValToString value }))
  else (false, el)

/-! ### `domUtils.ts` + V2 content script: `fillInputByIdx` and
`handleFillForms` -/

structure V2Elem where
  /-- `element.tagName` (UPPERCASE, as the DOM exposes it). -/
  tag : String := "INPUT"
  value : String := ""
  options : List SOption := []
  events : List String := []
  styleApplied : Bool := false
  /-- models a page event handler throwing during `dispatchEvent`; the
  surrounding `try/catch` converts this into a `false` return. -/
  throws : Bool := false
deriving Repr, DecidableEq

/-- The UUID → element map the content script keeps. -/
structure PageV2 where
  elementMap : List (String × V2Elem)
deriving Repr, DecidableEq

def pageGet (p : PageV2) (idx : String) : Option V2Elem :=
  (p.elementMap.find? (fun q => q.1 == idx)).map (·.2)

def pageSet (p : PageV2) (idx : String) (el : V2Elem) : PageV2 :=
  ⟨p.elementMap.map fun q => if q.1 == idx then (idx, el) else q⟩

/-- `fillInputByIdx`: select elements need a (lowercased, bidirectional)
substring match against an option's text; other elements take the value
directly; both dispatch events and apply the highlight style.  The
dialog `pointer-events` juggling only toggles a style and is omitted. -/
def fillInputByIdx (p : PageV2) (idx value : String) : Bool × PageV2 :=
  match pageGet p idx with
  | none => (false, p)
  | some el =>
    if el.tag == "SELECT" then
      match el.options.find? (fun o =>
          jsIncludes (jsToLower o.text) (jsToLower value)
            || jsIncludes (jsToLower value) (jsToLower o.text)) with
      | some o =>
        let el1 := { el with value := o.value, events := el.events ++ ["change"] }
        if el.throws then (false, pageSet p idx el1)
        else (true, pageSet p idx { el1 with styleApplied := true })
      | none => (false, p)
    else
      let el1 := { el with value := value, events := el.events ++ ["input", "change"] }
      if el.throws then (false, pageSet p idx el1)
      else (true, pageSet p idx { el1 with styleApplied := true })

/-- One iteration of the V2 content script's fill loop: attempt the
mapping and increment `successful` or `failed`. -/
def fillStepV2 (acc : FillResults × PageV2) (m : MappingV2) :
    FillResults × PageV2 :=
  let r := fillInputByIdx acc.2 m.idx m.value
  (⟨acc.1.total,
    (if r.1 then acc.1.successful + 1 else acc.1.successful),
    (if r.1 then acc.1.failed else acc.1.failed + 1)⟩, r.2)

/-- The V2 content script's `handleFillForms` loop: results start at
`{total: mappings.length, successful: 0, failed: 0}` and every mapping is
attempted in order, incrementing one counter each. -/
def handleFillFormsV2 (p : PageV2) (mappings : List MappingV2) :
    FillResults × PageV2 :=
  mappings.foldl fillStepV2 (⟨mappings.length, 0, 0⟩, p)

/-- A trivial `Date` engine for witnesses (never parses). -/
def dateEnvNone : DateEnv := ⟨fun _ => none, fun _ => none⟩

/-- A one-option select element for the C10 witness. -/
def selectElemExample : JSElem :=
  { tag := "select", typ := "select-one",
    options := [⟨"US", "United States"⟩], value := "orig" }

/-- A two-element page for the C2 witness. -/
def pageV2Example : PageV2 :=
  ⟨[("u1", { tag := "INPUT" }), ("u2", { tag := "INPUT" })]⟩

namespace Doc

/-! ### `formUtils.js`: `getAssociatedLabel` and `extractFormElements` -/

def visibleOf (d : Doc) (i : Nat) : Bool := ((d.node? i).map (·.visible)).getD false

def placeholderOf (d : Doc) (i : Nat) : String :=
  ((d.node? i).map (·.placeholderAttr)).getD ""

def requiredOf (d : Doc) (i : Nat) : Bool :=
  ((d.node? i).map (·.requiredAttr)).getD false

/-- `element.className` (the space-joined class list). -/
def classNameOf (d : Doc) (i : Nat) : String :=
  String.intercalate " " (((d.node? i).map (·.classes)).getD [])

/-- `getAssociatedLabel`: `label[for=id]` document-wide, else the nearest
enclosing `<label>`, else a `<label>` immediately preceding the element. -/
def getAssociatedLabel (d : Doc) (i : Nat) : Option Nat :=
  let byFor :=
    if d.idOf i ≠ "" then (d.allLabels).find? fun l => d.forOf l = d.idOf i
    else none
  match byFor with
  | some l => some l
  | none =>
    match (d.ancestors i).find? (fun a => d.tagOf a = "label") with
    | some l => some l
    | none =>
      match d.prevElemSibling i with
      | some sib => if d.tagOf sib = "label" then some sib else none
      | none => none

/-- The `type` property: inputs default to `"text"`, selects expose
`"select-one"`, textareas `"textarea"`; a `<div>` has none. -/
def typePropOf (d : Doc) (i : Nat) : String :=
  match d.node? i with
  | none => ""
  | some n =>
    if n.tag = "input" then (if n.typeAttr = "" then "text" else n.typeAttr)
    else if n.tag = "select" then "select-one"
    else if n.tag = "textarea" then "textarea"
    else ""

def labelTextOf (d : Doc) (l : Nat) : String := jsTrim (d.textContentOf l)

end Doc

/-- The element record `extractFormElements` builds. -/
structure ElemInfo where
  id : String
  name : String
  typ : String
  placeholder : String
  required : Bool
  options : List SOption
  label : Option String
deriving Repr, DecidableEq

namespace Doc

/-- The `.map` body of `extractFormElements`: id/name/type/placeholder/
required, the associated label's trimmed text, and the per-kind options
(select options, radio sibling groups, checkbox label pairs). -/
def elemInfoOf (d : Doc) (form j : Nat) : ElemInfo :=
  let label := (d.getAssociatedLabel j).map fun l => d.labelTextOf l
  let opts :=
    if d.tagOf j = "select" then
      ((d.descendantsOf j).filter fun c => d.tagOf c = "option").map fun c =>
        (⟨d.valueOf c, d.labelTextOf c⟩ : SOption)
    else if d.typePropOf j = "radio" && d.nameOf j ≠ "" then
      let radioGroup := (d.descendantsOf form).filter fun r =>
        d.tagOf r = "input" && d.typeAttrOf r = "radio" && d.nameOf r = d.nameOf j
      if radioGroup.length > 1 then
        radioGroup.map fun r =>
          (⟨d.valueOf r,
            match d.getAssociatedLabel r with
            | some l => d.labelTextOf l
            | none => d.valueOf r⟩ : SOption)
      else []
    else if d.typePropOf j = "checkbox" then
      match d.getAssociatedLabel j with
      | some l =>
        [⟨"true", d.labelTextOf l⟩, ⟨"false", "Not " ++ d.labelTextOf l⟩]
      | none => []
    else []
  { id := d.idOf j, name := d.nameOf j,
    typ := if d.typePropOf j = "" then d.tagOf j else d.typePropOf j,
    placeholder := d.placeholderOf j,
    required := d.requiredOf j,
    options := opts,
    label := label }

/-- `extractFormElements`: query the form-input selectors, keep visible
elements (or everything inside a virtual form), build the records, and
keep only those with an id or a name. -/
def extractFormElements (d : Doc) (form : Nat) : List ElemInfo :=
  let elements := (d.descendantsOf form).filter fun j => d.matchesFormInputs j
  let visibleOnes := elements.filter fun j =>
    if d.classNameOf form = "quickfill-virtual-form" then true else d.visibleOf j
  (visibleOnes.map fun j => d.elemInfoOf form j).filter fun e =>
    e.id ≠ "" || e.name ≠ ""

/-! ### `domUtils.ts`: `indexAllInputs` -/

/-- The V2 `INPUT_SELECTORS` input arm:
`input:not([type="submit"]):not([type="button"]):not([type="reset"]):not([type="hidden"])`. -/
def matchesV2Input (d : Doc) (j : Nat) : Bool :=
  match d.node? j with
  | none => false
  | some n =>
    n.tag = "input" && n.typeAttr ≠ "submit" && n.typeAttr ≠ "button" &&
      n.typeAttr ≠ "reset" && n.typeAttr ≠ "hidden"

def matchesV2Selector (d : Doc) (j : Nat) : Bool :=
  d.matchesV2Input j || d.tagOf j = "textarea"

/-- `'[role="dialog"], .modal, .dialog, [aria-modal="true"]'`. -/
def isModalElem (d : Doc) (j : Nat) : Bool :=
  match d.node? j with
  | none => false
  | some n =>
    n.role = "dialog" || n.classes.contains "modal" ||
      n.classes.contains "dialog" || n.ariaModal

end Doc

/-- `[...new Set([...acc, ...ys])]`: push each element of `ys` not already
present, keeping first-occurrence order. -/
def dedupPush (acc ys : List Nat) : List Nat :=
  ys.foldl (fun a y => if y ∈ a then a else a ++ [y]) acc

namespace Doc

/-- The deduplicated candidate list of `indexAllInputs` (document-wide
matches combined with the per-modal sweep). -/
def allElementsV2 (d : Doc) : List Nat :=
  let elements := (List.range d.nodes.length).filter fun j => d.matchesV2Selector j
  let modalElements := (List.range d.nodes.length).filter fun j => d.isModalElem j
  let modalInputs := modalElements.foldl
    (fun acc m =>
      acc ++ ((d.descendantsOf m).filter fun j => d.matchesV2Input j)
        ++ ((d.descendantsOf m).filter fun j => d.tagOf j = "textarea"))
    []
  dedupPush (dedupPush [] elements) modalInputs

/-- All preceding element siblings, nearest first. -/
def prevElemSiblings (d : Doc) (i : Nat) : List Nat :=
  match d.parentOf i with
  | none => []
  | some p => ((d.childrenOf p).filter fun j => j < i && d.isElem j).reverse

/-- `getElementLabel` of `domUtils.ts`: `closest('label')` (self included)
with nonempty text, else the nearest preceding label/span sibling with
nonempty text (tag names compared case-normalized). -/
def getElementLabelV2 (d : Doc) (j : Nat) : String :=
  let prevScan :=
    match (d.prevElemSiblings j).find? (fun s =>
        (d.tagOf s = "label" || d.tagOf s = "span") && d.textContentOf s ≠ "") with
    | some s => jsTrim (d.textContentOf s)
    | none => ""
  match (j :: d.ancestors j).find? (fun a => d.tagOf a = "label") with
  | some l => if d.textContentOf l ≠ "" then jsTrim (d.textContentOf l) else prevScan
  | none => prevScan

def formAncestor (d : Doc) (j : Nat) : Option Nat :=
  (d.ancestors j).find? fun a => d.tagOf a = "form"

/-- The element's attributes as name/value pairs (everything but `style`,
which the code skips; the model carries no style attribute). -/
def attrPairsOf (d : Doc) (j : Nat) : List (String × String) :=
  match d.node? j with
  | none => []
  | some n =>
    (if n.idAttr ≠ "" then [("id", n.idAttr)] else []) ++
    (if n.nameAttr ≠ "" then [("name", n.nameAttr)] else []) ++
    (if n.typeAttr ≠ "" then [("type", n.typeAttr)] else []) ++
    (if n.valueAttr ≠ "" then [("value", n.valueAttr)] else []) ++
    (if n.placeholderAttr ≠ "" then [("placeholder", n.placeholderAttr)] else []) ++
    (if n.maskAttr ≠ "" then [("maskplaceholder", n.maskAttr)] else []) ++
    (if n.forAttr ≠ "" then [("for", n.forAttr)] else []) ++
    (if n.requiredAttr then [("required", "")] else []) ++
    (if n.classes ≠ [] then [("class", String.intercalate " " n.classes)] else []) ++
    (if n.role ≠ "" then [("role", n.role)] else []) ++
    (if n.ariaModal then [("aria-modal", "true")] else [])

/-- The `attributesString` built for one indexed element: rendered
attributes, the label text, the enclosing form id (`form.id` or a
generated `form-` token from `genId`), and the in-dialog marker; trimmed
at the end. -/
def attrStringOf (d : Doc) (genId : Nat → String) (j : Nat) : String :=
  let base := (d.attrPairsOf j).foldl
    (fun acc p => acc ++ p.1 ++ "=\"" ++ p.2 ++ "\" ") ""
  let lt := d.getElementLabelV2 j
  let withLabel := if lt ≠ "" then base ++ "label=\"" ++ lt ++ "\" " else base
  let withForm :=
    match d.formAncestor j with
    | some f =>
      withLabel ++ "formId=\"" ++
        (if d.idOf f ≠ "" then d.idOf f else "form-" ++ genId f) ++ "\" "
    | none => withLabel
  let withDialog :=
    if (j :: d.ancestors j).any (fun a => d.isModalElem a) then
      withForm ++ "inDialog=\"true\" "
    else withForm
  jsTrim withDialog

/-- `indexAllInputs`: one `FormElement` per candidate, in order, with a
fresh opaque identifier from the UUID source `uuidOf` — elements without
`id`/`name` included. -/
def indexAllInputs (d : Doc) (uuidOf genId : Nat → String) : List FormElementV2 :=
  (d.allElementsV2).enum.map fun kj =>
    { idx := uuidOf kj.1, otherAttributesMap := d.attrStringOf genId kj.2 }

end Doc

/-- `html > body > form > (input without id/name, input#email)`: the
document exercising the extraction claims. -/
def docExtractExample : Doc := ⟨[
  { tag := "html" },
  { tag := "body", parent := some 0 },
  { tag := "form", parent := some 1 },
  { tag := "input", parent := some 2 },
  { tag := "input", parent := some 2, idAttr := "email" }
]⟩

namespace Doc

/-! ### `formUtils.js`: element resolution in `fillFormWithMappings` -/

def rTopOf (d : Doc) (i : Nat) : Int := ((d.node? i).map (·.rTop)).getD 0

def rLeftOf (d : Doc) (i : Nat) : Int := ((d.node? i).map (·.rLeft)).getD 0

/-- One candidate field (`'input, select, textarea'`). -/
def isField (d : Doc) (j : Nat) : Bool := isFieldTag (d.tagOf j)

/-- The label-text test of the resolution loop: trimmed lowercased
`textContent` equal to, or containing, the lowercased target. -/
def labelMatchesC1 (d : Doc) (l : Nat) (target : String) : Bool :=
  let t := jsToLower (jsTrim (d.textContentOf l))
  t == jsToLower target || jsIncludes t (jsToLower target)

/-- The per-label element extraction of the document-wide loop, in source
order: the `for` attribute via `getElementById`, then the first field
inside the label, then the first field under the label's parent. Each
arm is a `break` in the source. -/
def labelResolveOnce (d : Doc) (l : Nat) : Option Nat :=
  match (if d.forOf l ≠ "" then d.getElementById (d.forOf l) else none) with
  | some e => some e
  | none =>
    match (d.descendantsOf l).filter (fun j => d.isField j) with
    | e :: _ => some e
    | [] =>
      match d.parentOf l with
      | none => none
      | some p =>
        match (d.descendantsOf p).filter (fun j => d.isField j) with
        | e :: _ => some e
        | [] => none

/-- The zen-mode sweep: first field under a sibling of the label's parent
(first such sibling wins, the `forEach` is guarded by `!element`), else
the first field under the grandparent. No `break` follows it. -/
def zenSearch (d : Doc) (l : Nat) : Option Nat :=
  match d.parentOf l with
  | none => none
  | some p =>
    match d.parentOf p with
    | none => none
    | some gp =>
      let sibRes := ((d.childrenOf gp).filter fun j => d.isElem j).foldl
        (fun acc sib =>
          if acc.isNone && sib ≠ p then
            match (d.descendantsOf sib).filter (fun j => d.isField j) with
            | e :: _ => some e
            | [] => acc
          else acc)
        none
      match sibRes with
      | some e => some e
      | none =>
        match (d.descendantsOf gp).filter (fun j => d.isField j) with
        | e :: _ => some e
        | [] => none

/-- The document-wide label loop. A match taken by `labelResolveOnce`
breaks; the zen sweep only assigns the loop variable (when still unset)
and the loop continues, so a later label can still break with its own
element. -/
def labelLoop (d : Doc) (zen : Bool) (target : String) :
    List Nat → Option Nat → Option Nat
  | [], acc => acc
  | l :: rest, acc =>
    if d.labelMatchesC1 l target then
      match d.labelResolveOnce l with
      | some e => some e
      | none =>
        labelLoop d zen target rest
          (if zen && acc.isNone then d.zenSearch l else acc)
    else labelLoop d zen target rest acc

/-- The form-scoped fallback (`!element && !useZenMode`): the first
matching form label, its `for` target inside the form, else the first
field under the label's parent, else the first field inside the label —
note the last two arms run in the opposite order to the document loop. -/
def formScopedLabel (d : Doc) (form : Nat) (target : String) : Option Nat :=
  let labels := (d.descendantsOf form).filter fun j => d.tagOf j == "label"
  match labels.find? (fun l => d.labelMatchesC1 l target) with
  | none => none
  | some ml =>
    match (if d.forOf ml ≠ "" then
        (d.descendantsOf form).find? fun j => d.isElem j && d.idOf j == d.forOf ml
      else none) with
    | some e => some e
    | none =>
      match (match d.parentOf ml with
        | some p => ((d.descendantsOf p).filter fun j => d.isField j).head?
        | none => none) with
      | some e => some e
      | none => ((d.descendantsOf ml).filter fun j => d.isField j).head?

/-- Strategy 1: `#id` then `[name=...]`, form-scoped, guarded by a
nonempty identifier. -/
def strategyIdName (d : Doc) (form : Nat) (tid : String) : Option Nat :=
  if tid ≠ "" then
    match (d.descendantsOf form).find? (fun j => d.isElem j && d.idOf j == tid) with
    | some e => some e
    | none =>
      (d.descendantsOf form).find? fun j => d.isElem j && d.nameOf j == tid
  else none

/-- Strategy 2: the document-wide label loop, then (outside zen mode) the
form-scoped fallback; guarded by a nonempty label. -/
def strategyLabel (d : Doc) (form : Nat) (zen : Bool) (target : String) :
    Option Nat :=
  if target ≠ "" then
    match labelLoop d zen target d.allLabels none with
    | some e => some e
    | none => if !zen then d.formScopedLabel form target else none
  else none

/-- Strategy 3: the first form radio whose value equals the mapping value;
guarded by `type === "radio"` and a nonempty value. -/
def strategyRadio (d : Doc) (form : Nat) (typ value : String) : Option Nat :=
  if typ == "radio" && value ≠ "" then
    ((d.descendantsOf form).filter fun j =>
      d.tagOf j == "input" && d.typeAttrOf j == "radio").find? fun j =>
        d.valueOf j == value
  else none

/-- The selector of strategy 4: `input[type="${type}"]` for `hidden`, else
`input[type="${type}"]:not([type="hidden"]), ${type}`. -/
def matchesTypeSelector (d : Doc) (typ : String) (j : Nat) : Bool :=
  if typ == "hidden" then d.tagOf j == "input" && d.typeAttrOf j == "hidden"
  else (d.tagOf j == "input" && d.typeAttrOf j == typ) || d.tagOf j == typ

/-- The TreeWalker proximity scan of strategy 4: over each form text node
containing the label (outer, document order) and each candidate (inner),
keep the candidate with the strictly smallest
`|textTop - elTop| + |textLeft - elLeft|`; first encountered wins ties. -/
def bestByProximity (d : Doc) (target : String) (elements textNodes : List Nat) :
    Option Nat :=
  let g := jsToLower target
  (textNodes.foldl
    (fun best t =>
      if jsIncludes (jsToLower (jsTrim (((d.node? t).map (·.textOwn)).getD ""))) g then
        match d.parentOf t with
        | none => best
        | some p =>
          elements.foldl
            (fun b el =>
              let dist := (d.rTopOf p - d.rTopOf el).natAbs +
                (d.rLeftOf p - d.rLeftOf el).natAbs
              match b with
              | none => some (el, dist)
              | some pr => if dist < pr.2 then some (el, dist) else b)
            best
      else best)
    (none : Option (Nat × Nat))).map Prod.fst

/-- Strategy 4: the type-selector candidates, refined by label proximity
when a label is present, else the first candidate; guarded by a nonempty
type. -/
def strategyType (d : Doc) (form : Nat) (typ target : String) : Option Nat :=
  if typ ≠ "" then
    match (d.descendantsOf form).filter (fun j => d.matchesTypeSelector typ j) with
    | [] => none
    | e :: rest =>
      match (if target ≠ "" then
          d.bestByProximity target (e :: rest)
            ((d.descendantsOf form).filter fun t => d.tagOf t == "#text")
        else none) with
      | some b => some b
      | none => some e
  else none

/-- Strategy 5: the first form field whose nonempty id or name contains
the identifier as a substring; guarded by a nonempty identifier. -/
def strategySubstr (d : Doc) (form : Nat) (tid : String) : Option Nat :=
  if tid ≠ "" then
    ((d.descendantsOf form).filter fun j => d.isField j).find? fun j =>
      (d.idOf j ≠ "" && jsIncludes (d.idOf j) tid) ||
      (d.nameOf j ≠ "" && jsIncludes (d.nameOf j) tid)
  else none

end Doc

/-- The element-resolution block of `fillFormWithMappings` for one mapping:
`element` starts `null` and each strategy block is entered only while it is
still unset (`if (!element && ...)`). -/
def resolveElement (d : Doc) (form : Nat) (zen : Bool) (m : JMapping) :
    Option Nat :=
  let element1 := d.strategyIdName form m.htmlElementId
  let element2 := if element1.isNone then d.strategyLabel form zen m.label
    else element1
  let element3 := if element2.isNone then d.strategyRadio form m.typ m.value
    else element2
  let element4 := if element3.isNone then d.strategyType form m.typ m.label
    else element3
  if element4.isNone then d.strategySubstr form m.htmlElementId else element4

/-- The spec reading of the label strategy: one pass accepting only exact
(case-insensitive, trimmed) label-text matches, then a second pass
accepting substring matches, each resolving via the same per-label chain. -/
def labelChainSpec (d : Doc) (target : String) : Option Nat :=
  match (d.allLabels).findSome? (fun l =>
      if jsToLower (jsTrim (d.textContentOf l)) == jsToLower target then
        d.labelResolveOnce l
      else none) with
  | some e => some e
  | none =>
    (d.allLabels).findSome? fun l =>
      if jsIncludes (jsToLower (jsTrim (d.textContentOf l))) (jsToLower target) then
        d.labelResolveOnce l
      else none

/-- `html > body > form > (label[for=a] "Full Name", input#a,
label[for=b] "Name", input#b)`: the document separating the code's label
scan from the exact-first reading. -/
def docLabelExample : Doc := ⟨[
  { tag := "html" },
  { tag := "body", parent := some 0 },
  { tag := "form", parent := some 1 },
  { tag := "label", parent := some 2, forAttr := "a" },
  { tag := "#text", parent := some 3, textOwn := "Full Name" },
  { tag := "input", parent := some 2, idAttr := "a" },
  { tag := "label", parent := some 2, forAttr := "b" },
  { tag := "#text", parent := some 6, textOwn := "Name" },
  { tag := "input", parent := some 2, idAttr := "b" }
]⟩

end QuickFill

/-! # Theorems -/

namespace QuickFill

namespace EnhancedCache

variable {α : Type}

/-! Supporting lemmas about the association-list `Map` and the access
order. -/

theorem eraseStr_of_not_mem {k : String} {l : List String} (h : k ∉ l) :
    eraseStr k l = l := by
  induction l with
  | nil => rfl
  | cons x rest ih =>
    simp only [List.mem_cons, not_or] at h
    simp [eraseStr, Ne.symm h.1, ih h.2]

theorem mem_of_mem_eraseStr {x k : String} {l : List String}
    (h : x ∈ eraseStr k l) : x ∈ l := by
  induction l with
  | nil => simp [eraseStr] at h
  | cons y rest ih =>
    by_cases hy : y = k
    · simp only [eraseStr, if_pos hy] at h
      exact List.mem_cons_of_mem _ h
    · simp only [eraseStr, if_neg hy, List.mem_cons] at h
      rcases h with h | h
      · exact h ▸ List.mem_cons_self _ _
      · exact List.mem_cons_of_mem _ (ih h)

theorem mem_eraseStr_of_ne {x k : String} {l : List String}
    (hne : x ≠ k) (h : x ∈ l) : x ∈ eraseStr k l := by
  induction l with
  | nil => simp at h
  | cons y rest ih =>
    by_cases hy : y = k
    · simp only [eraseStr, if_pos hy]
      rcases List.mem_cons.mp h with h | h
      · exact absurd (h ▸ hy) hne
      · exact h
    · simp only [eraseStr, if_neg hy, List.mem_cons]
      rcases List.mem_cons.mp h with h | h
      · exact Or.inl h
      · exact Or.inr (ih h)

theorem nodup_eraseStr {k : String} {l : List String} (h : l.Nodup) :
    (eraseStr k l).Nodup := by
  induction l with
  | nil => simp [eraseStr]
  | cons y rest ih =>
    rcases List.nodup_cons.mp h with ⟨hy, hrest⟩
    by_cases hyk : y = k
    · simpa [eraseStr, hyk] using hrest
    · simp only [eraseStr, if_neg hyk]
      exact List.nodup_cons.mpr ⟨fun hmem => hy (mem_of_mem_eraseStr hmem), ih hrest⟩

theorem not_mem_eraseStr_self {k : String} {l : List String} (h : l.Nodup) :
    k ∉ eraseStr k l := by
  induction l with
  | nil => simp [eraseStr]
  | cons y rest ih =>
    rcases List.nodup_cons.mp h with ⟨hy, hrest⟩
    by_cases hyk : y = k
    · simp only [eraseStr, if_pos hyk]
      exact hyk ▸ hy
    · simp only [eraseStr, if_neg hyk, List.mem_cons, not_or]
      exact ⟨fun hk => hyk hk.symm, ih hrest⟩

theorem eraseStr_append_of_not_mem {k : String} {xs ys : List String}
    (h : k ∉ xs) : eraseStr k (xs ++ ys) = xs ++ eraseStr k ys := by
  induction xs with
  | nil => rfl
  | cons x rest ih =>
    simp only [List.mem_cons, not_or] at h
    simp [eraseStr, Ne.symm h.1, ih h.2]

theorem mapGet_isSome_iff {m : List (String × CacheEntry α)} {k : String} :
    (mapGet m k).isSome = true ↔ k ∈ m.map Prod.fst := by
  induction m with
  | nil => simp [mapGet]
  | cons p rest ih =>
    obtain ⟨ka, va⟩ := p
    by_cases h : ka = k
    · simp [mapGet, h]
    · simp [mapGet, h, ih, Ne.symm h]

theorem mapGet_none_iff {m : List (String × CacheEntry α)} {k : String} :
    mapGet m k = none ↔ k ∉ m.map Prod.fst := by
  induction m with
  | nil => simp [mapGet]
  | cons p rest ih =>
    obtain ⟨ka, va⟩ := p
    by_cases h : ka = k
    · simp [mapGet, h]
    · simp [mapGet, h, ih, Ne.symm h]

theorem keys_mapDelete {m : List (String × CacheEntry α)} {k : String} :
    (mapDelete m k).map Prod.fst = eraseStr k (m.map Prod.fst) := by
  induction m with
  | nil => rfl
  | cons p rest ih =>
    obtain ⟨ka, va⟩ := p
    by_cases h : ka = k
    · simp [mapDelete, eraseStr, h]
    · simp [mapDelete, eraseStr, h, ih]

theorem mapDelete_of_none {m : List (String × CacheEntry α)} {k : String}
    (h : mapGet m k = none) : mapDelete m k = m := by
  induction m with
  | nil => rfl
  | cons p rest ih =>
    obtain ⟨ka, va⟩ := p
    by_cases hk : ka = k
    · simp [mapGet, hk] at h
    · simp only [mapGet, if_neg hk] at h
      simp [mapDelete, hk, ih h]

theorem length_mapDelete_of_some {m : List (String × CacheEntry α)} {k : String}
    (h : (mapGet m k).isSome = true) : (mapDelete m k).length + 1 = m.length := by
  induction m with
  | nil => simp [mapGet] at h
  | cons p rest ih =>
    obtain ⟨ka, va⟩ := p
    by_cases hk : ka = k
    · simp [mapDelete, hk]
    · simp only [mapGet, if_neg hk] at h
      simp [mapDelete, hk, ← ih h]

theorem length_mapDelete_le {m : List (String × CacheEntry α)} {k : String} :
    (mapDelete m k).length ≤ m.length := by
  cases h : mapGet m k with
  | none => simp [mapDelete_of_none h]
  | some e =>
    have := length_mapDelete_of_some (m := m) (k := k) (by simp [h])
    omega

theorem mapSet_of_none {m : List (String × CacheEntry α)} {k : String}
    {v : CacheEntry α} (h : mapGet m k = none) : mapSet m k v = m ++ [(k, v)] := by
  induction m with
  | nil => rfl
  | cons p rest ih =>
    obtain ⟨ka, vb⟩ := p
    by_cases hk : ka = k
    · simp [mapGet, hk] at h
    · simp only [mapGet, if_neg hk] at h
      simp [mapSet, hk, ih h]

theorem keys_mapSet_of_some {m : List (String × CacheEntry α)} {k : String}
    {v : CacheEntry α} (h : (mapGet m k).isSome = true) :
    (mapSet m k v).map Prod.fst = m.map Prod.fst := by
  induction m with
  | nil => simp [mapGet] at h
  | cons p rest ih =>
    obtain ⟨ka, vb⟩ := p
    by_cases hk : ka = k
    · simp [mapSet, hk]
    · simp only [mapGet, if_neg hk] at h
      simp [mapSet, hk, ih h]

theorem mapGet_mapDelete_none {m : List (String × CacheEntry α)} {k k' : String}
    (h : mapGet m k = none) : mapGet (mapDelete m k') k = none := by
  induction m with
  | nil => rfl
  | cons p rest ih =>
    obtain ⟨k₀, v⟩ := p
    by_cases h0 : k₀ = k
    · simp [mapGet, h0] at h
    · simp only [mapGet, if_neg h0] at h
      by_cases h1 : k₀ = k'
      · simp [mapDelete, h1, h]
      · simp [mapDelete, h1, mapGet, h0, ih h]

theorem mapGet_mapDelete_self {m : List (String × CacheEntry α)} {k : String}
    (h : (m.map Prod.fst).Nodup) : mapGet (mapDelete m k) k = none := by
  induction m with
  | nil => rfl
  | cons p rest ih =>
    obtain ⟨ka, va⟩ := p
    simp only [List.map_cons, List.nodup_cons] at h
    by_cases hk : ka = k
    · simp only [mapDelete, if_pos hk]
      exact mapGet_none_iff.mpr (hk ▸ h.1)
    · simp [mapDelete, hk, mapGet, ih h.2]

/-! Preservation of the representation invariant. -/

theorem wf_updateAccessTime {c : EnhancedCache α} {k : String} (hwf : c.Wf)
    (hk : k ∈ keys c) : (updateAccessTime c k).Wf := by
  obtain ⟨hao, hkeys, h1, h2⟩ := hwf
  refine ⟨?_, hkeys, ?_, ?_⟩
  · exact List.Nodup.append (nodup_eraseStr hao) (List.nodup_singleton k)
      (fun x hx hx' => by
        rcases List.mem_singleton.mp hx' with rfl
        exact not_mem_eraseStr_self hao hx)
  · intro x hx
    rcases List.mem_append.mp hx with hx | hx
    · exact h1 x (mem_of_mem_eraseStr hx)
    · rcases List.mem_singleton.mp hx with rfl
      exact hk
  · intro x hx
    by_cases hxk : x = k
    · exact List.mem_append.mpr (Or.inr (by simp [hxk]))
    · exact List.mem_append.mpr (Or.inl (mem_eraseStr_of_ne hxk (h2 x hx)))

theorem wf_evictLRU {c : EnhancedCache α} (hwf : c.Wf) : (evictLRU c).Wf := by
  obtain ⟨hao, hkeys, h1, h2⟩ := hwf
  cases hao' : c.accessOrder with
  | nil => simpa [evictLRU, hao'] using ⟨hao, hkeys, h1, h2⟩
  | cons lru rest =>
    rw [hao'] at hao h1 h2
    rcases List.nodup_cons.mp hao with ⟨hlru, hrest⟩
    have he : evictLRU c = ⟨mapDelete c.cache lru, rest⟩ := by
      simp [evictLRU, hao']
    rw [he]
    refine ⟨hrest, ?_, ?_, ?_⟩
    · show ((mapDelete c.cache lru).map Prod.fst).Nodup
      rw [keys_mapDelete]
      exact nodup_eraseStr hkeys
    · intro x hx
      show x ∈ (mapDelete c.cache lru).map Prod.fst
      rw [keys_mapDelete]
      exact mem_eraseStr_of_ne (fun h => hlru (h ▸ hx))
        (h1 x (List.mem_cons_of_mem _ hx))
    · intro x hx
      replace hx : x ∈ eraseStr lru (keys c) := by
        simpa [keys, keys_mapDelete] using hx
      have hxk : x ≠ lru := fun h => not_mem_eraseStr_self hkeys (h ▸ hx)
      rcases List.mem_cons.mp (h2 x (mem_of_mem_eraseStr hx)) with h | h
      · exact absurd h hxk
      · exact h

/-- The state after `mapSet` + `updateAccessTime` (the tail of `set`) is
well-formed whenever its input is; the appended access-order slot is what
restores the invariant for a brand-new key. -/
theorem wf_withSet (c1 : EnhancedCache α) (hwf1 : c1.Wf) (k : String)
    (v : CacheEntry α) :
    Wf ⟨mapSet c1.cache k v, eraseStr k c1.accessOrder ++ [k]⟩ := by
  obtain ⟨hao, hkeys, h1, h2⟩ := hwf1
  cases hget : mapGet c1.cache k with
  | some e =>
    have hsome : (mapGet c1.cache k).isSome = true := by simp [hget]
    have hkmem : k ∈ keys c1 := mapGet_isSome_iff.mp hsome
    have hkeys' : (⟨mapSet c1.cache k v, eraseStr k c1.accessOrder ++ [k]⟩ :
        EnhancedCache α).cache.map Prod.fst = keys c1 := keys_mapSet_of_some hsome
    refine ⟨?_, ?_, ?_, ?_⟩
    · exact List.Nodup.append (nodup_eraseStr hao) (List.nodup_singleton k)
        (fun x hx hx' => by
          rcases List.mem_singleton.mp hx' with rfl
          exact not_mem_eraseStr_self hao hx)
    · rw [show keys (⟨mapSet c1.cache k v, _⟩ : EnhancedCache α) =
        (mapSet c1.cache k v).map Prod.fst from rfl, keys_mapSet_of_some hsome]
      exact hkeys
    · intro x hx
      have hx' : x ∈ keys c1 := by
        rcases List.mem_append.mp hx with hx | hx
        · exact h1 x (mem_of_mem_eraseStr hx)
        · rcases List.mem_singleton.mp hx with rfl; exact hkmem
      simpa [keys, keys_mapSet_of_some hsome] using hx'
    · intro x hx
      simp only [keys, keys_mapSet_of_some hsome] at hx
      by_cases hxk : x = k
      · exact List.mem_append.mpr (Or.inr (by simp [hxk]))
      · exact List.mem_append.mpr (Or.inl (mem_eraseStr_of_ne hxk (h2 x hx)))
  | none =>
    have hknot : k ∉ keys c1 := mapGet_none_iff.mp hget
    have hknotao : k ∉ c1.accessOrder := fun h => hknot (h1 k h)
    have hset : mapSet c1.cache k v = c1.cache ++ [(k, v)] := mapSet_of_none hget
    have hkeys' : (mapSet c1.cache k v).map Prod.fst = keys c1 ++ [k] := by
      simp [hset, keys]
    have hao' : eraseStr k c1.accessOrder = c1.accessOrder :=
      eraseStr_of_not_mem hknotao
    refine ⟨?_, ?_, ?_, ?_⟩
    · rw [hao']
      exact List.Nodup.append hao (List.nodup_singleton k)
        (fun x hx hx' => by
          rcases List.mem_singleton.mp hx' with rfl
          exact hknotao hx)
    · show ((mapSet c1.cache k v).map Prod.fst).Nodup
      rw [hkeys']
      exact List.Nodup.append hkeys (List.nodup_singleton k)
        (fun x hx hx' => by
          rcases List.mem_singleton.mp hx' with rfl
          exact hknot hx)
    · intro x hx
      show x ∈ (mapSet c1.cache k v).map Prod.fst
      rw [hkeys']
      rw [hao'] at hx
      rcases List.mem_append.mp hx with hx | hx
      · exact List.mem_append.mpr (Or.inl (h1 x hx))
      · exact List.mem_append.mpr (Or.inr hx)
    · intro x hx
      rw [show keys (⟨mapSet c1.cache k v, _⟩ : EnhancedCache α) =
        (mapSet c1.cache k v).map Prod.fst from rfl, hkeys'] at hx
      rw [hao']
      rcases List.mem_append.mp hx with hx | hx
      · exact List.mem_append.mpr (Or.inl (h2 x hx))
      · exact List.mem_append.mpr (Or.inr hx)

theorem wf_deleteKey {c : EnhancedCache α} (hwf : c.Wf) (k : String) :
    (deleteKey c k).Wf := by
  obtain ⟨hao, hkeys, h1, h2⟩ := hwf
  have hkeq : keys (deleteKey c k) = eraseStr k (keys c) := keys_mapDelete
  refine ⟨nodup_eraseStr hao, ?_, ?_, ?_⟩
  · show (keys (deleteKey c k)).Nodup
    rw [hkeq]
    exact nodup_eraseStr hkeys
  · intro x hx
    have hxk : x ≠ k := fun h => not_mem_eraseStr_self hao (h ▸ hx)
    show x ∈ keys (deleteKey c k)
    rw [hkeq]
    exact mem_eraseStr_of_ne hxk (h1 x (mem_of_mem_eraseStr hx))
  · intro x hx
    rw [hkeq] at hx
    have hxk : x ≠ k := fun h => not_mem_eraseStr_self hkeys (h ▸ hx)
    exact mem_eraseStr_of_ne hxk (h2 x (mem_of_mem_eraseStr hx))

theorem length_eraseStr_of_mem {k : String} {l : List String} (h : k ∈ l) :
    (eraseStr k l).length + 1 = l.length := by
  induction l with
  | nil => simp at h
  | cons x rest ih =>
    by_cases hx : x = k
    · simp [eraseStr, hx]
    · rcases List.mem_cons.mp h with h | h
      · exact absurd h.symm hx
      · simp [eraseStr, hx, ← ih h]

theorem hasKey_false_iff {c : EnhancedCache α} {k : String} :
    hasKey c k = false ↔ mapGet c.cache k = none := by
  cases h : mapGet c.cache k <;> simp [hasKey, h]

/-- `set` unfolded to its final cache component. -/
theorem size_set (c : EnhancedCache α) (k : String) (d : α) (expiration now : Nat) :
    size (set c k d expiration now) =
      (mapSet (if decide (CACHE_MAX_SIZE ≤ size c) && !hasKey c k then evictLRU c
        else c).cache k ⟨d, now + expiration⟩).length := rfl

/-- `set` unfolded to its final key list. -/
theorem keys_set (c : EnhancedCache α) (k : String) (d : α) (expiration now : Nat) :
    keys (set c k d expiration now) =
      (mapSet (if decide (CACHE_MAX_SIZE ≤ size c) && !hasKey c k then evictLRU c
        else c).cache k ⟨d, now + expiration⟩).map Prod.fst := rfl

/-- Claim C4 — the `EnhancedCache` invariants.  With `c` well-formed:
(1) `set` keeps the size within `CACHE_MAX_SIZE`; (2) `set` preserves
well-formedness; (3) `get` preserves well-formedness and never grows the
cache; (4) a `set` of a brand-new key at capacity evicts exactly the
least-recently-accessed key (the front of the access order): the resulting
key list is the old one minus the LRU key, plus the new key; (5) `get` on
any expired entry returns `none` and purges that key, whatever its position
in the access order. -/
theorem claimC4_theorem {α : Type} (c : EnhancedCache α) (k : String) (d : α)
    (expiration now : Nat) (hwf : c.Wf) :
    (size c ≤ CACHE_MAX_SIZE → size (set c k d expiration now) ≤ CACHE_MAX_SIZE)
    ∧ (set c k d expiration now).Wf
    ∧ (∀ k2, ((get c k2 now).2).Wf ∧ size ((get c k2 now).2) ≤ size c)
    ∧ (size c = CACHE_MAX_SIZE → hasKey c k = false →
        ∀ lru, c.accessOrder.head? = some lru →
          keys (set c k d expiration now) = eraseStr lru (keys c) ++ [k])
    ∧ (∀ k2 e, mapGet c.cache k2 = some e → e.expiresAt < now →
        (get c k2 now).1 = none ∧ hasKey (get c k2 now).2 k2 = false) := by
  have hc1wf : Wf (if decide (CACHE_MAX_SIZE ≤ size c) && !hasKey c k then evictLRU c
      else c) := by
    split
    · exact wf_evictLRU hwf
    · exact hwf
  refine ⟨?_, ?_, ?_, ?_, ?_⟩
  · -- (1) capacity bound
    intro hle
    rw [size_set]
    by_cases hguard : (decide (CACHE_MAX_SIZE ≤ size c) && !hasKey c k) = true
    · rw [if_pos hguard]
      rcases Bool.and_eq_true_iff.mp hguard with ⟨hge, hnot⟩
      have hge' : CACHE_MAX_SIZE ≤ size c := of_decide_eq_true hge
      have hhasf : hasKey c k = false := by simpa using hnot
      have hkget : mapGet c.cache k = none := hasKey_false_iff.mp hhasf
      have h50 : size c = CACHE_MAX_SIZE := le_antisymm hle hge'
      have hkeysne : keys c ≠ [] := by
        intro hnil
        have : (keys c).length = CACHE_MAX_SIZE := by simpa [keys, size] using h50
        rw [hnil] at this
        simp [CACHE_MAX_SIZE] at this
      obtain ⟨x, hx⟩ := List.exists_mem_of_ne_nil _ hkeysne
      have hxao : x ∈ c.accessOrder := hwf.2.2.2 x hx
      cases hao : c.accessOrder with
      | nil => rw [hao] at hxao; simp at hxao
      | cons lru rest =>
        have hlrukeys : lru ∈ keys c :=
          hwf.2.2.1 lru (by rw [hao]; exact List.mem_cons_self _ _)
        have hevict : evictLRU c = ⟨mapDelete c.cache lru, rest⟩ := by
          simp [evictLRU, hao]
        rw [hevict]
        show (mapSet (mapDelete c.cache lru) k ⟨d, now + expiration⟩).length ≤
          CACHE_MAX_SIZE
        rw [mapSet_of_none (mapGet_mapDelete_none hkget)]
        have hdel : (mapDelete c.cache lru).length + 1 = c.cache.length :=
          length_mapDelete_of_some (mapGet_isSome_iff.mpr hlrukeys)
        simp only [List.length_append, List.length_cons, List.length_nil]
        simp only [size] at h50
        omega
    · rw [if_neg hguard]
      cases hkget : mapGet c.cache k with
      | some e =>
        have hsome : (mapGet c.cache k).isSome = true := by simp [hkget]
        have hlen := congrArg List.length
          (keys_mapSet_of_some (v := ⟨d, now + expiration⟩) hsome)
        simp only [List.length_map] at hlen
        rw [hlen]
        exact hle
      | none =>
        have hnotge : ¬ CACHE_MAX_SIZE ≤ size c := by
          intro hge
          exact hguard (Bool.and_eq_true_iff.mpr
            ⟨decide_eq_true hge, by simp [hasKey, hkget]⟩)
        rw [mapSet_of_none hkget]
        simp only [List.length_append, List.length_cons, List.length_nil]
        simp only [size] at hnotge
        omega
  · -- (2) set preserves Wf
    exact wf_withSet _ hc1wf k _
  · -- (3) get preserves Wf and never grows the cache
    intro k2
    cases hkget : mapGet c.cache k2 with
    | none => simp [get, hkget, hwf]
    | some e =>
      have hk2 : k2 ∈ keys c := mapGet_isSome_iff.mp (by simp [hkget])
      by_cases hexp : e.expiresAt < now
      · have hres : (get c k2 now).2 = deleteKey (updateAccessTime c k2) k2 := by
          simp [get, hkget, hexp]
        rw [hres]
        constructor
        · exact wf_deleteKey (wf_updateAccessTime hwf hk2) k2
        · show (mapDelete c.cache k2).length ≤ c.cache.length
          exact length_mapDelete_le
      · have hres : (get c k2 now).2 = updateAccessTime c k2 := by
          simp [get, hkget, hexp]
        rw [hres]
        exact ⟨wf_updateAccessTime hwf hk2, le_refl _⟩
  · -- (4) eviction at capacity removes exactly the LRU key
    intro h50 hhas lru hhead
    have hkget : mapGet c.cache k = none := hasKey_false_iff.mp hhas
    have hguard : (decide (CACHE_MAX_SIZE ≤ size c) && !hasKey c k) = true :=
      Bool.and_eq_true_iff.mpr ⟨decide_eq_true (le_of_eq h50.symm), by simp [hhas]⟩
    cases hao : c.accessOrder with
    | nil => rw [hao] at hhead; simp at hhead
    | cons l r =>
      rw [hao] at hhead
      simp only [List.head?_cons, Option.some.injEq] at hhead
      subst hhead
      have hevict : evictLRU c = ⟨mapDelete c.cache l, r⟩ := by
        simp [evictLRU, hao]
      rw [keys_set, if_pos hguard, hevict]
      show (mapSet (mapDelete c.cache l) k ⟨d, now + expiration⟩).map Prod.fst =
        eraseStr l (keys c) ++ [k]
      rw [mapSet_of_none (mapGet_mapDelete_none hkget)]
      simp [keys_mapDelete, keys]
  · -- (5) expired entries are absent and purged
    intro k2 e hkget hexp
    constructor
    · simp [get, hkget, hexp]
    · have hres : (get c k2 now).2 = deleteKey (updateAccessTime c k2) k2 := by
        simp [get, hkget, hexp]
      rw [hres]
      show (mapGet (mapDelete c.cache k2) k2).isSome = false
      rw [mapGet_mapDelete_self hwf.2.1]
      rfl

/-- Witness for Claim C4 at the concrete two-entry cache `cacheExample`
(capacity bound after a `set`; an expired `get` of `"b"` at time 5 returns
`none` and purges the key). -/
theorem claimC4_witness :
    cacheExample.Wf
    ∧ EnhancedCache.size (EnhancedCache.set cacheExample "c" "z" 100 0) ≤ CACHE_MAX_SIZE
    ∧ (EnhancedCache.get cacheExample "b" 5).1 = none
    ∧ EnhancedCache.hasKey (EnhancedCache.get cacheExample "b" 5).2 "b" = false := by
  have h := claimC4_theorem cacheExample "c" "z" 100 0 (by decide)
  have h5 := (claimC4_theorem cacheExample "c" "z" 100 5 (by decide)).2.2.2.2 "b" ⟨"y", 2⟩
    (by decide) (by decide)
  exact ⟨by decide, h.1 (by decide), h5.1, h5.2⟩

end EnhancedCache

/-! ### Claim C3: malformed model responses -/

/-- Claim C3, counterexample.  On the prose response `"Sorry, I cannot
help."` the V2 parsing step (`parseGPTResponse`) does not fail with a
`MalformedResponse` error: it swallows the `JSON.parse` failure and returns
an empty mapping list, and `processFormWithGPT` reports `success = true`
with no error; the V1 `processGPTMappingResponse` likewise returns `[]`.
The claim's "the response-parsing step fails with a MalformedResponse
error" is therefore false on the code. -/
theorem claimC3_counterexample :
    parseGPTResponse "Sorry, I cannot help." [⟨"u1", ""⟩] = []
    ∧ (processFormWithGPTV2 "sk-key" [⟨"u1", ""⟩]
        (.ok "Sorry, I cannot help.")).success = true
    ∧ (processFormWithGPTV2 "sk-key" [⟨"u1", ""⟩]
        (.ok "Sorry, I cannot help.")).error = none
    ∧ processGPTMappingResponse (some "Sorry, I cannot help.") = [] :=
  ⟨rfl, rfl, rfl, rfl⟩

/-- Claim C3, amended.  When the response text contains no parsable JSON,
the parsing step returns an empty mapping list without surfacing any error
(`success = true`, `error = none`); the overall background operation then
reports the user-visible error `"No fields could be filled"` — because the
mapping list is empty, not because a `MalformedResponse` error was raised —
so the outcome is an error response, never a silent empty success. -/
theorem claimC3_theorem (raw : String) (elements : List FormElementV2)
    (apiKey : String) (doFill : List MappingV2 → FillResults)
    (hparse : parseJson (jsonTextOf raw) = none) (hkey : apiKey ≠ "") :
    parseGPTResponse raw elements = []
    ∧ (processFormWithGPTV2 apiKey elements (.ok raw)).success = true
    ∧ (processFormWithGPTV2 apiKey elements (.ok raw)).error = none
    ∧ bgAfterGPT (processFormWithGPTV2 apiKey elements (.ok raw)) doFill =
        ⟨false, some "No fields could be filled", none⟩ := by
  have h1 : parseGPTResponse raw elements = [] := by
    simp only [parseGPTResponse, hparse]
  have h2 : processFormWithGPTV2 apiKey elements (.ok raw) =
      ⟨true, [], none⟩ := by
    simp only [processFormWithGPTV2, if_neg hkey, h1]
  refine ⟨h1, by rw [h2], by rw [h2], ?_⟩
  rw [h2]
  rfl

/-- Witness for Claim C3 at the concrete prose response. -/
theorem claimC3_witness :
    parseGPTResponse "Sorry, I cannot help." [⟨"u7", ""⟩] = []
    ∧ bgAfterGPT (processFormWithGPTV2 "sk" [⟨"u7", ""⟩]
        (.ok "Sorry, I cannot help.")) (fun _ => ⟨0, 0, 0⟩) =
        ⟨false, some "No fields could be filled", none⟩ := by
  have h := claimC3_theorem "Sorry, I cannot help." [⟨"u7", ""⟩] "sk"
    (fun _ => ⟨0, 0, 0⟩) rfl (by decide)
  exact ⟨h.1, h.2.2.2⟩

/-! ### The ancestor chain under pre-order well-formedness -/

namespace Doc

theorem lt_length_of_node? {d : Doc} {i : Nat} {n : DNode}
    (h : d.node? i = some n) : i < d.nodes.length := by
  unfold Doc.node? at h
  obtain ⟨hlt, -⟩ := List.get?_eq_some.mp h
  exact hlt

theorem ancestorsAux_succ (d : Doc) (fuel i : Nat) :
    ancestorsAux d (fuel + 1) i =
      (match d.parentOf i with
       | none => []
       | some p => p :: ancestorsAux d fuel p) := rfl

theorem parentOf_lt {d : Doc} (hwf : d.Wf) {i p : Nat}
    (hp : d.parentOf i = some p) : p < i := by
  have h := hwf i
  unfold Doc.wfAt at h
  unfold Doc.parentOf at hp
  cases hn : d.node? i with
  | none => rw [hn] at hp; simp at hp
  | some n =>
    rw [hn] at h hp
    simp only [Option.some_bind] at hp
    have h' : (match n.parent with
        | none => true
        | some p => decide (p < i)) = true := h
    rw [hp] at h'
    exact of_decide_eq_true h'

theorem ancestorsAux_congr {d : Doc} (hwf : d.Wf) :
    ∀ i f1 f2, i < f1 → i < f2 → ancestorsAux d f1 i = ancestorsAux d f2 i := by
  intro i
  induction i using Nat.strong_induction_on with
  | _ i ih =>
    intro f1 f2 h1 h2
    cases f1 with
    | zero => omega
    | succ f1 =>
      cases f2 with
      | zero => omega
      | succ f2 =>
        rw [ancestorsAux_succ d f1 i, ancestorsAux_succ d f2 i]
        cases hp : d.parentOf i with
        | none => rfl
        | some p =>
          have hpi : p < i := parentOf_lt hwf hp
          show p :: ancestorsAux d f1 p = p :: ancestorsAux d f2 p
          rw [ih p hpi f1 f2 (by omega) (by omega)]

/-- Under well-formedness the fuel is irrelevant: the ancestor chain
satisfies its natural unfolding. -/
theorem ancestors_eq {d : Doc} (hwf : d.Wf) (i : Nat) :
    d.ancestors i =
      (match d.parentOf i with
       | none => []
       | some p => p :: d.ancestors p) := by
  cases hp : d.parentOf i with
  | none =>
    show d.ancestors i = []
    unfold Doc.ancestors
    cases d.nodes.length with
    | zero => rfl
    | succ m => rw [ancestorsAux_succ, hp]
  | some p =>
    show d.ancestors i = p :: d.ancestors p
    have hn : ∃ n, d.node? i = some n := by
      unfold Doc.parentOf at hp
      cases hn : d.node? i with
      | none => rw [hn] at hp; simp at hp
      | some n => exact ⟨n, rfl⟩
    obtain ⟨n, hn⟩ := hn
    have hi : i < d.nodes.length := lt_length_of_node? hn
    have hpi : p < i := parentOf_lt hwf hp
    unfold Doc.ancestors
    cases hl : d.nodes.length with
    | zero => omega
    | succ m =>
      rw [ancestorsAux_succ, hp]
      show p :: d.ancestorsAux m p = p :: d.ancestorsAux (m + 1) p
      rw [ancestorsAux_congr hwf p m (m + 1) (by omega) (by omega)]

theorem ancestors_trans {d : Doc} (hwf : d.Wf) :
    ∀ i x, x ∈ d.ancestors i → ∀ y ∈ d.ancestors x, y ∈ d.ancestors i := by
  intro i
  induction i using Nat.strong_induction_on with
  | _ i ih =>
    intro x hx y hy
    rw [ancestors_eq hwf i] at hx ⊢
    cases hp : d.parentOf i with
    | none => rw [hp] at hx; simp at hx
    | some p =>
      rw [hp] at hx
      replace hx : x ∈ p :: d.ancestors p := hx
      show y ∈ p :: d.ancestors p
      rcases List.mem_cons.mp hx with rfl | hx
      · exact List.mem_cons_of_mem _ hy
      · exact List.mem_cons_of_mem _ (ih p (parentOf_lt hwf hp) x hx y hy)

theorem parent_mem_ancestors {d : Doc} (hwf : d.Wf) {i p : Nat}
    (hp : d.parentOf i = some p) : p ∈ d.ancestors i := by
  rw [ancestors_eq hwf i, hp]
  exact List.mem_cons_self _ _

theorem ccAdvance_mem {d : Doc} (hwf : d.Wf) {i x y : Nat}
    (hx : x ∈ d.ancestors i) (hy : ccAdvance d (some x) = some y) :
    y ∈ d.ancestors i := by
  replace hy : (if d.isBody x then some x else d.parentOf x) = some y := hy
  by_cases hb : d.isBody x = true
  · rw [if_pos hb] at hy
    cases hy
    exact hx
  · rw [if_neg hb] at hy
    exact ancestors_trans hwf i x hx y (parent_mem_ancestors hwf hy)

/-- The container `findCommonContainer` returns is always an ancestor of
the input. -/
theorem findCommonContainer_mem {d : Doc} (hwf : d.Wf) {i c : Nat}
    (hc : d.findCommonContainer i = some c) : c ∈ d.ancestors i := by
  unfold findCommonContainer at hc
  cases hp : d.parentOf i with
  | none =>
    rw [hp] at hc
    replace hc : (none : Option Nat) = some c := hc
    simp at hc
  | some p =>
    have hpmem : p ∈ d.ancestors i := parent_mem_ancestors hwf hp
    rw [hp] at hc
    replace hc : (match ccAdvance d (ccAdvance d (some p)) with
        | none => some p
        | some x => if d.isBody x then some p else some x) = some c := hc
    cases h1 : ccAdvance d (some p) with
    | none =>
      rw [h1] at hc
      replace hc : (some p : Option Nat) = some c := hc
      cases hc
      exact hpmem
    | some x =>
      have hxmem : x ∈ d.ancestors i := ccAdvance_mem hwf hpmem h1
      rw [h1] at hc
      cases h2 : ccAdvance d (some x) with
      | none =>
        rw [h2] at hc
        replace hc : (some p : Option Nat) = some c := hc
        cases hc
        exact hpmem
      | some y =>
        have hymem : y ∈ d.ancestors i := ccAdvance_mem hwf hxmem h2
        rw [h2] at hc
        replace hc : (if d.isBody y then some p else some y) = some c := hc
        by_cases hb : d.isBody y = true
        · rw [if_pos hb] at hc
          cases hc
          exact hpmem
        · rw [if_neg hb] at hc
          cases hc
          exact hymem

theorem matchesStandalone_node? {d : Doc} {i : Nat}
    (h : d.matchesStandalone i = true) : ∃ n, d.node? i = some n := by
  unfold matchesStandalone at h
  cases hn : d.node? i with
  | none => rw [hn] at h; simp at h
  | some n => exact ⟨n, rfl⟩

theorem mem_descendantsOf_of_anc {d : Doc} {i c : Nat}
    (hlt : i < d.nodes.length) (hanc : c ∈ d.ancestors i) :
    i ∈ d.descendantsOf c := by
  unfold Doc.descendantsOf
  apply List.mem_filter.mpr
  refine ⟨List.mem_range.mpr hlt, ?_⟩
  unfold Doc.isDescOf
  exact List.elem_eq_true_of_mem hanc

/-- Coverage invariant of the grouping loop: every standalone-matching
input of the list ends up processed or in an emitted group. -/
theorem groupsGo_cover {d : Doc} (hwf : d.Wf) :
    ∀ (inputs processed : List Nat) (gs : List (Nat × List Nat)),
      groupsGo d inputs processed = some gs →
      ∀ i ∈ inputs, d.matchesStandalone i = true →
        i ∈ processed ∨ ∃ g ∈ gs, i ∈ g.2 := by
  intro inputs
  induction inputs with
  | nil => intro processed gs _ i hi; simp at hi
  | cons a rest ih =>
    intro processed gs hgo i hi hmatch
    simp only [groupsGo] at hgo
    by_cases hproc : a ∈ processed
    · rw [if_pos hproc] at hgo
      rcases List.mem_cons.mp hi with rfl | hi
      · exact Or.inl hproc
      · exact ih processed gs hgo i hi hmatch
    · rw [if_neg hproc] at hgo
      cases hc : d.findCommonContainer a with
      | none => rw [hc] at hgo; simp at hgo
      | some c =>
        rw [hc] at hgo
        replace hgo : (match groupsGo d rest
            (processed ++ (d.descendantsOf c).filter fun j => d.matchesStandalone j) with
          | some gs =>
            some ((c, (d.descendantsOf c).filter fun j => d.matchesStandalone j) :: gs)
          | none => none) = some gs := hgo
        cases hrec : groupsGo d rest
            (processed ++ (d.descendantsOf c).filter fun j => d.matchesStandalone j) with
        | none => rw [hrec] at hgo; simp at hgo
        | some gs' =>
          rw [hrec] at hgo
          replace hgo : some ((c, (d.descendantsOf c).filter fun j =>
            d.matchesStandalone j) :: gs') = some gs := hgo
          simp only [Option.some.injEq] at hgo
          subst hgo
          rcases List.mem_cons.mp hi with rfl | hi
          · refine Or.inr ⟨(c, (d.descendantsOf c).filter fun j => d.matchesStandalone j),
              List.mem_cons_self _ _, ?_⟩
            apply List.mem_filter.mpr
            obtain ⟨n, hn⟩ := matchesStandalone_node? hmatch
            exact ⟨mem_descendantsOf_of_anc (lt_length_of_node? hn)
              (findCommonContainer_mem hwf hc), hmatch⟩
          · rcases ih _ gs' hrec i hi hmatch with hmem | ⟨g, hg, hgi⟩
            · rcases List.mem_append.mp hmem with hmem | hmem
              · exact Or.inl hmem
              · exact Or.inr ⟨_, List.mem_cons_self _ _, hmem⟩
            · exact Or.inr ⟨g, List.mem_cons_of_mem _ hg, hgi⟩

end Doc

/-! ### Claim C5: grouping of orphan inputs -/

/-- Claim C5, counterexample.  On `docGroupsExample` with the orphan-input
set `[6, 7]` (both match the standalone selector), the produced groups are
`[(3, [6]), (2, [6, 7])]`: input 6 appears in *two* groups, so the groups
do not partition the input set. -/
theorem claimC5_counterexample :
    docGroupsExample.matchesStandalone 6 = true
    ∧ docGroupsExample.matchesStandalone 7 = true
    ∧ docGroupsExample.groupInputsByContainer [6, 7] = some [(3, [6]), (2, [6, 7])]
    ∧ ((docGroupsExample.groupInputsByContainer [6, 7]).getD []).countP
        (fun g => g.2.contains 6) = 2 := by
  refine ⟨by decide, by decide, by decide, by decide⟩

/-- Claim C5, amended.  The groups produced by `groupInputsByContainer`
cover the orphan-input set — every standalone-matching input of the set
appears in at least one group — but they need not be disjoint: an input
can appear in several groups when a later input's container contains an
earlier input's container (see the counterexample). -/
theorem claimC5_theorem {d : Doc} (hwf : d.Wf) (inputs : List Nat)
    (gs : List (Nat × List Nat))
    (hgo : d.groupInputsByContainer inputs = some gs) :
    ∀ i ∈ inputs, d.matchesStandalone i = true → ∃ g ∈ gs, i ∈ g.2 := by
  intro i hi hmatch
  rcases Doc.groupsGo_cover hwf inputs [] gs hgo i hi hmatch with hmem | h
  · simp at hmem
  · exact h

/-- Witness for Claim C5 on the concrete document. -/
theorem claimC5_witness :
    docGroupsExample.Wf
    ∧ docGroupsExample.matchesStandalone 6 = true
    ∧ ∃ g ∈ [((3 : Nat), [(6 : Nat)]), (2, [6, 7])], 6 ∈ g.2 := by
  refine ⟨by decide, by decide, ?_⟩
  exact claimC5_theorem (d := docGroupsExample) (by decide) [6, 7]
    [(3, [6]), (2, [6, 7])] (by decide) 6 (by decide) (by decide)

/-! ### Claim C6: three-tier select matching -/

theorem selScan_eq_some {p : SOption → Bool} {pre post : List SOption} {o : SOption}
    (hpre : ∀ x ∈ pre, p x = false) (ho : p o = true) :
    selScan p (pre ++ o :: post) = some o := by
  induction pre with
  | nil => simp [selScan, ho]
  | cons x rest ih =>
    have hx : p x = false := hpre x (List.mem_cons_self _ _)
    simp only [List.cons_append, selScan]
    rw [if_neg (by simp [hx])]
    exact ih fun y hy => hpre y (List.mem_cons_of_mem _ hy)

theorem selScan_eq_none {p : SOption → Bool} {l : List SOption}
    (h : ∀ x ∈ l, p x = false) : selScan p l = none := by
  induction l with
  | nil => rfl
  | cons x rest ih =>
    have hx : p x = false := h x (List.mem_cons_self _ _)
    simp only [selScan]
    rw [if_neg (by simp [hx])]
    exact ih fun y hy => h y (List.mem_cons_of_mem _ hy)

/-- Claim C6 — `fillSelectElement` proceeds in exactly three tiers (exact
case-insensitive value-or-text equality, then substring containment either
direction, then normalized comparison); the first tier with any match wins
and selects the first matching option in source order; if no tier matches,
`element.value` is left unchanged.  In particular, on options
`[{value:"US", text:"United States"}]` and value `"united states"`, the
exact-insensitive tier matches. -/
theorem claimC6_theorem (opts pre post : List SOption) (o : SOption)
    (cur value : String) :
    ((opts = pre ++ o :: post ∧ selTier1 value o = true ∧
        (∀ x ∈ pre, selTier1 value x = false)) →
      fillSelectElement opts cur value = (o.value, true))
    ∧ (((∀ x ∈ opts, selTier1 value x = false) ∧ opts = pre ++ o :: post ∧
        selTier2 value o = true ∧ (∀ x ∈ pre, selTier2 value x = false)) →
      fillSelectElement opts cur value = (o.value, true))
    ∧ (((∀ x ∈ opts, selTier1 value x = false) ∧
        (∀ x ∈ opts, selTier2 value x = false) ∧ opts = pre ++ o :: post ∧
        selTier3 value o = true ∧ (∀ x ∈ pre, selTier3 value x = false)) →
      fillSelectElement opts cur value = (o.value, true))
    ∧ ((∀ x ∈ opts, selTier1 value x = false ∧ selTier2 value x = false ∧
        selTier3 value x = false) →
      fillSelectElement opts cur value = (cur, false))
    ∧ (selTier1 "united states" ⟨"US", "United States"⟩ = true
        ∧ fillSelectElement [⟨"US", "United States"⟩] "" "united states" =
            ("US", true)) := by
  refine ⟨?_, ?_, ?_, ?_, by decide, by decide⟩
  · rintro ⟨rfl, ho, hpre⟩
    unfold fillSelectElement
    rw [selScan_eq_some hpre ho]
  · rintro ⟨h1, rfl, ho, hpre⟩
    unfold fillSelectElement
    rw [selScan_eq_none h1, selScan_eq_some hpre ho]
  · rintro ⟨h1, h2, rfl, ho, hpre⟩
    unfold fillSelectElement
    rw [selScan_eq_none h1, selScan_eq_none h2, selScan_eq_some hpre ho]
  · intro h
    unfold fillSelectElement
    rw [selScan_eq_none fun x hx => (h x hx).1,
      selScan_eq_none fun x hx => (h x hx).2.1,
      selScan_eq_none fun x hx => (h x hx).2.2]

/-- Witness for Claim C6 at the spec's example. -/
theorem claimC6_witness :
    fillSelectElement [⟨"US", "United States"⟩] "x" "united states" =
      ("US", true) :=
  ( claimC6_theorem [⟨"US", "United States"⟩] [] [] ⟨"US", "United States"⟩
    "x" "united states").1 ⟨rfl, by decide, by simp⟩

/-! ### Claim C8: checkbox truthy/falsy vocabulary -/

/-- Claim C8 — for every checkbox element, `"sim"`, `"1"`, `true` and
`"on"` set `checked := true`, and `"não"`, `"0"`, `false` and `"off"` set
`checked := false`, regardless of the element's label or prior state. -/
theorem claimC8_theorem (el : JSElem) (h : el.typ = "checkbox") :
    (fillCheckboxOrRadio el (.s "sim")).checked = true
    ∧ (fillCheckboxOrRadio el (.s "1")).checked = true
    ∧ (fillCheckboxOrRadio el (.b true)).checked = true
    ∧ (fillCheckboxOrRadio el (.s "on")).checked = true
    ∧ (fillCheckboxOrRadio el (.s "não")).checked = false
    ∧ (fillCheckboxOrRadio el (.s "0")).checked = false
    ∧ (fillCheckboxOrRadio el (.b false)).checked = false
    ∧ (fillCheckboxOrRadio el (.s "off")).checked = false := by
  have hc : (el.typ == "checkbox") = true := by simp [h]
  have hcbr : ∀ v, fillCheckboxOrRadio el v = fillCheckbox el v := by
    intro v
    unfold fillCheckboxOrRadio
    rw [if_pos hc]
  have hpos : ∀ v, listIncludesJS positiveValues (jsValToLower v) = true →
      (fillCheckbox el v).checked = true := by
    intro v hv
    simp [fillCheckbox, hv]
  have hneg : ∀ v, listIncludesJS positiveValues (jsValToLower v) = false →
      listIncludesJS negativeValues (jsValToLower v) = true →
      (fillCheckbox el v).checked = false := by
    intro v h1 h2
    simp [fillCheckbox, h1, h2]
  refine ⟨?_, ?_, ?_, ?_, ?_, ?_, ?_, ?_⟩
  all_goals rw [hcbr]
  · exact hpos _ (by decide)
  · exact hpos _ (by decide)
  · exact hpos _ (by decide)
  · exact hpos _ (by decide)
  · exact hneg _ (by decide) (by decide)
  · exact hneg _ (by decide) (by decide)
  · exact hneg _ (by decide) (by decide)
  · exact hneg _ (by decide) (by decide)

/-- Witness for Claim C8 on concrete checkboxes (one initially checked,
one not). -/
theorem claimC8_witness :
    (fillCheckboxOrRadio { typ := "checkbox" } (.s "sim")).checked = true
    ∧ (fillCheckboxOrRadio { typ := "checkbox", checked := true }
        (.s "não")).checked = false :=
  ⟨(claimC8_theorem { typ := "checkbox" } rfl).1,
    (claimC8_theorem { typ := "checkbox", checked := true } rfl).2.2.2.2.1⟩

/-! ### Claim C7: the masked-date reformatter -/

theorem isDigit_beq_slash {c : Char} (h : c.isDigit = true) : (c == '/') = false := by
  cases hb : c == '/'
  · rfl
  · have hc : c = '/' := eq_of_beq hb
    subst hc
    exact absurd h (by decide)

theorem isDigit_beq_dash {c : Char} (h : c.isDigit = true) : (c == '-') = false := by
  cases hb : c == '-'
  · rfl
  · have hc : c = '-' := eq_of_beq hb
    subst hc
    exact absurd h (by decide)

theorem string_append_data (a b : String) : (a ++ b).data = a.data ++ b.data := rfl

/-- Claim C7 — the masked-date write: every `YYYY-MM-DD` input becomes
`DD/MM/YYYY` with the identical digit components (the calendar date is
preserved); inputs already matching `DD/MM/YYYY` pass through unchanged;
anything else is parsed generically and reformatted on success, and the
raw input is written unchanged on parse failure. -/
theorem claimC7_theorem (parseToLocal : String → Option JsDate) (v : String) :
    (∀ y1 y2 y3 y4 m1 m2 d1 d2 : Char,
      v.data = [y1, y2, y3, y4, '-', m1, m2, '-', d1, d2] →
      [y1, y2, y3, y4, m1, m2, d1, d2].all Char.isDigit = true →
      (maskedDateWrite parseToLocal v).data =
        [d1, d2, '/', m1, m2, '/', y1, y2, y3, y4])
    ∧ (reDDMMYYYY v = true → maskedDateWrite parseToLocal v = v)
    ∧ (reDDMMYYYY v = false → reISO v = false →
        maskedDateWrite parseToLocal v =
          (match parseToLocal v with
           | some dt => fmtDDMMYYYY dt
           | none => v)) := by
  refine ⟨?_, ?_, ?_⟩
  · intro y1 y2 y3 y4 m1 m2 d1 d2 hdata hdig
    simp only [List.all_cons, List.all_nil, Bool.and_true, Bool.and_eq_true] at hdig
    obtain ⟨hy1, hy2, hy3, hy4, hm1, hm2, hd1, hd2⟩ := hdig
    have hdd : reDDMMYYYY v = false := by
      simp [reDDMMYYYY, hdata, isDigit_beq_slash hy3]
    have hiso : reISO v = true := by
      simp [reISO, hdata, hy1, hy2, hy3, hy4, hm1, hm2, hd1, hd2]
    have hsplit : jsSplitChar '-' v =
        [⟨[y1, y2, y3, y4]⟩, ⟨[m1, m2]⟩, ⟨[d1, d2]⟩] := by
      simp [jsSplitChar, hdata, splitOnCharAux, isDigit_beq_dash hy1,
        isDigit_beq_dash hy2, isDigit_beq_dash hy3, isDigit_beq_dash hy4,
        isDigit_beq_dash hm1, isDigit_beq_dash hm2, isDigit_beq_dash hd1,
        isDigit_beq_dash hd2, List.asString]
    simp only [maskedDateWrite, hdd, hiso, hsplit, Bool.false_eq_true,
      if_false, if_true, List.getD]
    simp only [string_append_data]
    rfl
  · intro h
    unfold maskedDateWrite
    rw [if_pos h]
  · intro h1 h2
    simp [maskedDateWrite, h1, h2]

/-- Witness for Claim C7: the ISO round trip at `2024-05-15`, the
pass-through at `15/05/2024`, and the raw fallback at `gibberish` under a
never-parsing `Date` engine. -/
theorem claimC7_witness :
    (maskedDateWrite dateEnvNone.parseToLocal "2024-05-15").data =
      "15/05/2024".data
    ∧ maskedDateWrite dateEnvNone.parseToLocal "15/05/2024" = "15/05/2024"
    ∧ maskedDateWrite dateEnvNone.parseToLocal "gibberish" = "gibberish" := by
  refine ⟨?_, ?_, ?_⟩
  · exact (claimC7_theorem dateEnvNone.parseToLocal "2024-05-15").1
      '2' '0' '2' '4' '0' '5' '1' '5' rfl (by decide)
  · exact (claimC7_theorem dateEnvNone.parseToLocal "15/05/2024").2.1 (by decide)
  · exact (claimC7_theorem dateEnvNone.parseToLocal "gibberish").2.2 (by decide)
      (by decide)

/-! ### Claim C10: unmatched select values still count as filled -/

/-- Claim C10 — `fillElement` on a `<select>` whose value matches no option
under any of the three tiers still returns `true` (so the caller counts the
field as filled), leaves the select's value unchanged, adds the highlight
class, and dispatches `input` then `change`. -/
theorem claimC10_theorem (env : DateEnv) (el : JSElem) (v : String)
    (htag : el.tag = "select")
    (hnomatch : ∀ o ∈ el.options, selTier1 v o = false ∧ selTier2 v o = false ∧
      selTier3 v o = false) :
    (fillElement env el (.s v)).1 = true
    ∧ ((fillElement env el (.s v)).2).value = el.value
    ∧ "quickfill-filled" ∈ ((fillElement env el (.s v)).2).classes
    ∧ ((fillElement env el (.s v)).2).events = el.events ++ ["input", "change"] := by
  have htl : jsToLower el.tag = "select" := by rw [htag]; rfl
  have hsel : fillSelectElement el.options el.value v = (el.value, false) := by
    unfold fillSelectElement
    rw [selScan_eq_none fun x hx => (hnomatch x hx).1,
      selScan_eq_none fun x hx => (hnomatch x hx).2.1,
      selScan_eq_none fun x hx => (hnomatch x hx).2.2]
  have hdp : (("select" : String) == "div") = false := by decide
  have hsp : (("select" : String) == "select") = true := by decide
  have hfill : fillElement env el (.s v) = (true, triggerEventsOn (highlightOn el)) := by
    simp [fillElement, htl, hdp, hsp, fillSelectAttempt, hsel]
  rw [hfill]
  refine ⟨rfl, rfl, ?_, rfl⟩
  show "quickfill-filled" ∈ (highlightOn el).classes
  unfold highlightOn
  by_cases hcl : el.classes.contains "quickfill-filled" = true
  · rw [if_pos hcl]
    exact List.mem_of_elem_eq_true hcl
  · rw [if_neg hcl]
    exact List.mem_append.mpr (Or.inr (List.mem_singleton.mpr rfl))

/-- Witness for Claim C10: the one-option select with the unmatched value
`"zzz"`. -/
theorem claimC10_witness :
    (fillElement dateEnvNone selectElemExample (.s "zzz")).1 = true
    ∧ ((fillElement dateEnvNone selectElemExample (.s "zzz")).2).value = "orig"
    ∧ "quickfill-filled" ∈
        ((fillElement dateEnvNone selectElemExample (.s "zzz")).2).classes
    ∧ ((fillElement dateEnvNone selectElemExample (.s "zzz")).2).events =
        ["input", "change"] := by
  have h := claimC10_theorem dateEnvNone selectElemExample "zzz" rfl (by decide)
  exact ⟨h.1, h.2.1, h.2.2.1, h.2.2.2⟩

/-! ### Claim C2: the fill batch never aborts and aggregates results -/

theorem fillFold_total_sum :
    ∀ (ms : List MappingV2) (p : PageV2) (t s f : Nat),
      (ms.foldl fillStepV2 (⟨⟨t, s, f⟩, p⟩)).1.total = t
      ∧ (ms.foldl fillStepV2 (⟨⟨t, s, f⟩, p⟩)).1.successful +
          (ms.foldl fillStepV2 (⟨⟨t, s, f⟩, p⟩)).1.failed = s + f + ms.length := by
  intro ms
  induction ms with
  | nil => intro p t s f; simp
  | cons m rest ih =>
    intro p t s f
    simp only [List.foldl_cons]
    cases hr : fillInputByIdx p m.idx m.value with
    | mk ok p1 =>
      have hstep : fillStepV2 (⟨⟨t, s, f⟩, p⟩) m =
          (⟨⟨t, if ok then s + 1 else s, if ok then f else f + 1⟩, p1⟩) := by
        simp [fillStepV2, hr]
      rw [hstep]
      obtain ⟨h1, h2⟩ := ih p1 t (if ok then s + 1 else s) (if ok then f else f + 1)
      refine ⟨h1, ?_⟩
      rw [h2]
      cases ok with
      | false => simp only [Bool.false_eq_true, if_false, List.length_cons]; omega
      | true => simp only [if_true, List.length_cons]; omega

theorem fillFold_shift :
    ∀ (ms : List MappingV2) (p : PageV2) (t t2 s f : Nat),
      (ms.foldl fillStepV2 (⟨⟨t, s, f⟩, p⟩)).1.successful =
        s + (ms.foldl fillStepV2 (⟨⟨t2, 0, 0⟩, p⟩)).1.successful
      ∧ (ms.foldl fillStepV2 (⟨⟨t, s, f⟩, p⟩)).1.failed =
        f + (ms.foldl fillStepV2 (⟨⟨t2, 0, 0⟩, p⟩)).1.failed
      ∧ (ms.foldl fillStepV2 (⟨⟨t, s, f⟩, p⟩)).2 =
        (ms.foldl fillStepV2 (⟨⟨t2, 0, 0⟩, p⟩)).2 := by
  intro ms
  induction ms with
  | nil => intro p t t2 s f; simp
  | cons m rest ih =>
    intro p t t2 s f
    simp only [List.foldl_cons]
    cases hr : fillInputByIdx p m.idx m.value with
    | mk ok p1 =>
      have hstep1 : fillStepV2 (⟨⟨t, s, f⟩, p⟩) m =
          (⟨⟨t, if ok then s + 1 else s, if ok then f else f + 1⟩, p1⟩) := by
        simp [fillStepV2, hr]
      have hstep2 : fillStepV2 (⟨⟨t2, 0, 0⟩, p⟩) m =
          (⟨⟨t2, if ok then 1 else 0, if ok then 0 else 1⟩, p1⟩) := by
        simp [fillStepV2, hr]
      rw [hstep1, hstep2]
      obtain ⟨a1, a2, a3⟩ := ih p1 t t2 (if ok then s + 1 else s)
        (if ok then f else f + 1)
      obtain ⟨b1, b2, b3⟩ := ih p1 t2 t2 (if ok then 1 else 0)
        (if ok then 0 else 1)
      refine ⟨?_, ?_, ?_⟩
      · rw [a1, b1]
        cases ok with
        | false => simp only [Bool.false_eq_true, if_false]; omega
        | true => simp only [if_true]; omega
      · rw [a2, b2]
        cases ok with
        | false => simp only [Bool.false_eq_true, if_false]; omega
        | true => simp only [if_true]; omega
      · rw [a3, b3]

/-- Claim C2 — the V2 fill loop never aborts midway: the aggregate result
always has `total = mappings.length` and `successful + failed = total`, and
a mapping whose fill fails (unresolvable idx or a throwing write) is
counted as one failure while the remaining mappings are processed exactly
as they would be from the resulting page state. -/
theorem claimC2_theorem (p : PageV2) (mappings : List MappingV2) :
    (handleFillFormsV2 p mappings).1.total = mappings.length
    ∧ (handleFillFormsV2 p mappings).1.successful +
        (handleFillFormsV2 p mappings).1.failed = mappings.length
    ∧ ∀ (m : MappingV2) (rest : List MappingV2) (p2 : PageV2),
        fillInputByIdx p m.idx m.value = (false, p2) →
          (handleFillFormsV2 p (m :: rest)).1.total = rest.length + 1
          ∧ (handleFillFormsV2 p (m :: rest)).1.successful =
              (handleFillFormsV2 p2 rest).1.successful
          ∧ (handleFillFormsV2 p (m :: rest)).1.failed =
              (handleFillFormsV2 p2 rest).1.failed + 1
          ∧ (handleFillFormsV2 p (m :: rest)).2 = (handleFillFormsV2 p2 rest).2 := by
  refine ⟨(fillFold_total_sum mappings p mappings.length 0 0).1, ?_, ?_⟩
  · have h := (fillFold_total_sum mappings p mappings.length 0 0).2
    simpa using h
  · intro m rest p2 hfill
    have hstep : fillStepV2 (⟨⟨(m :: rest).length, 0, 0⟩, p⟩) m =
        (⟨⟨rest.length + 1, 0, 1⟩, p2⟩) := by
      simp [fillStepV2, hfill]
    have hunfold : handleFillFormsV2 p (m :: rest) =
        rest.foldl fillStepV2 (⟨⟨rest.length + 1, 0, 1⟩, p2⟩) := by
      unfold handleFillFormsV2
      rw [List.foldl_cons, hstep]
    obtain ⟨s1, s2, s3⟩ := fillFold_shift rest p2 (rest.length + 1) rest.length 0 1
    refine ⟨?_, ?_, ?_, ?_⟩
    · rw [hunfold]
      exact (fillFold_total_sum rest p2 (rest.length + 1) 0 1).1
    · rw [hunfold, s1]
      unfold handleFillFormsV2
      omega
    · rw [hunfold, s2]
      unfold handleFillFormsV2
      omega
    · rw [hunfold, s3]
      unfold handleFillFormsV2
      rfl

/-- Witness for Claim C2: a two-mapping batch whose first mapping targets a
missing idx — the failure is counted and the second mapping still fills. -/
theorem claimC2_witness :
    (handleFillFormsV2 pageV2Example [⟨"missing", "x"⟩, ⟨"u1", "Jane"⟩]).1.total = 2
    ∧ (handleFillFormsV2 pageV2Example [⟨"missing", "x"⟩, ⟨"u1", "Jane"⟩]).1.successful
      + (handleFillFormsV2 pageV2Example [⟨"missing", "x"⟩, ⟨"u1", "Jane"⟩]).1.failed = 2
    ∧ (handleFillFormsV2 pageV2Example [⟨"missing", "x"⟩, ⟨"u1", "Jane"⟩]).1.failed =
        (handleFillFormsV2 pageV2Example [⟨"u1", "Jane"⟩]).1.failed + 1 := by
  have h := claimC2_theorem pageV2Example [⟨"missing", "x"⟩, ⟨"u1", "Jane"⟩]
  have h3 := h.2.2 ⟨"missing", "x"⟩ [⟨"u1", "Jane"⟩] pageV2Example (by decide)
  exact ⟨h.1, h.2.1, h3.2.2.1⟩


/-! ## Claim C9: element discovery drops id/name-less fields only in V1 -/

theorem mem_dedupPush_left {x : Nat} {acc : List Nat} (ys : List Nat)
    (h : x ∈ acc) : x ∈ dedupPush acc ys := by
  induction ys generalizing acc with
  | nil => exact h
  | cons y ys ih =>
    show x ∈ dedupPush (if y ∈ acc then acc else acc ++ [y]) ys
    apply ih
    by_cases hy : y ∈ acc
    · simp [hy, h]
    · simp [hy]
      exact Or.inl h

theorem mem_dedupPush_right {x : Nat} {ys : List Nat} (acc : List Nat)
    (h : x ∈ ys) : x ∈ dedupPush acc ys := by
  induction ys generalizing acc with
  | nil => cases h
  | cons y ys ih =>
    show x ∈ dedupPush (if y ∈ acc then acc else acc ++ [y]) ys
    rcases List.mem_cons.mp h with hx | hx
    · subst hx
      apply mem_dedupPush_left
      by_cases hy : x ∈ acc
      · simp [hy]
      · simp [hy]
    · exact ih _ hx

theorem matchesV2Selector_lt {d : Doc} {j : Nat}
    (h : d.matchesV2Selector j = true) : j < d.nodes.length := by
  cases hn : d.node? j with
  | some n => exact Doc.lt_length_of_node? hn
  | none =>
    exfalso
    unfold Doc.matchesV2Selector Doc.matchesV2Input Doc.tagOf at h
    rw [hn] at h
    simp at h

/-- Claim C9 (counterexample to the no-omission reading for V1): in a form
holding a visible input with neither id nor name next to `input#email`, the
id/name-less input matches the form-input selectors and is visible, yet
`extractFormElements` returns only the record for `#email` — the final
`.filter((el) => el.id || el.name)` drops it. -/
theorem claimC9_counterexample :
    docExtractExample.matchesFormInputs 3 = true
    ∧ docExtractExample.visibleOf 3 = true
    ∧ docExtractExample.idOf 3 = "" ∧ docExtractExample.nameOf 3 = ""
    ∧ docExtractExample.extractFormElements 2 =
        [⟨"email", "", "text", "", false, [], none⟩] := by
  refine ⟨by decide, by decide, by decide, by decide, ?_⟩
  decide

/-- Claim C9 (amended): the V2 indexer `indexAllInputs` omits nothing — every
element matching its selectors is in the candidate list, and each candidate
is assigned a fresh opaque identifier from the UUID source in order,
independently of whether the element carries an id or a name. -/
theorem claimC9_theorem (d : Doc) (uuidOf genId : Nat → String) :
    ((d.indexAllInputs uuidOf genId).map fun e => e.idx) =
      (List.range (d.allElementsV2).length).map uuidOf
    ∧ ∀ j : Nat, d.matchesV2Selector j = true → j ∈ d.allElementsV2 := by
  constructor
  · unfold Doc.indexAllInputs
    rw [List.map_map]
    rw [show ((fun e : FormElementV2 => e.idx) ∘ fun kj : Nat × Nat =>
        ({ idx := uuidOf kj.1,
           otherAttributesMap := d.attrStringOf genId kj.2 } : FormElementV2)) =
        uuidOf ∘ Prod.fst from rfl]
    rw [← List.map_map, List.enum_map_fst]
  · intro j hj
    have hlt : j < d.nodes.length := matchesV2Selector_lt hj
    unfold Doc.allElementsV2
    apply mem_dedupPush_left
    apply mem_dedupPush_right
    simp only [List.mem_filter, List.mem_range]
    exact ⟨hlt, hj⟩

/-- Witness for Claim C9: on the example document the id/name-less input
(node 3) matches the V2 selectors and is indexed, receiving the first UUID. -/
theorem claimC9_witness :
    docExtractExample.matchesV2Selector 3 = true
    ∧ 3 ∈ docExtractExample.allElementsV2
    ∧ ((docExtractExample.indexAllInputs
          (fun k => String.mk (List.replicate (k + 1) (Char.ofNat 117)))
          (fun _ => "g")).map fun e => e.idx) =
        (List.range docExtractExample.allElementsV2.length).map
          (fun k => String.mk (List.replicate (k + 1) (Char.ofNat 117))) :=
  ⟨by decide,
   (claimC9_theorem docExtractExample
      (fun k => String.mk (List.replicate (k + 1) (Char.ofNat 117)))
      (fun _ => "g")).2 3 (by decide),
   (claimC9_theorem docExtractExample
      (fun k => String.mk (List.replicate (k + 1) (Char.ofNat 117)))
      (fun _ => "g")).1⟩


/-! ## Claim C1: the five-strategy resolution order -/

/-- Claim C1 (counterexample to the "exact then substring" label
sub-order): target label `"Name"`; the earlier label `"Full Name"` is only
a substring match and the later label `"Name"` an exact match, yet the
code scans labels in document order accepting either kind, so it resolves
to `input#a` (node 5) where the exact-first reading yields `input#b`
(node 8). -/
theorem claimC1_counterexample :
    docLabelExample.labelTextOf 3 = "Full Name"
    ∧ docLabelExample.labelTextOf 6 = "Name"
    ∧ resolveElement docLabelExample 2 false ⟨"", "x", "Name", "", ""⟩ = some 5
    ∧ labelChainSpec docLabelExample "Name" = some 8 :=
  ⟨by decide, by decide, by decide, by decide⟩

/-- Claim C1 (amended): resolution does try the five strategies in the
fixed order — id/name, label, radio value, declared type, partial
substring — stopping at the first success, and each strategy block is
guarded so a later one is never consulted once an earlier one succeeded;
only the parenthetical "exact then substring" sub-ordering inside the
label strategy is wrong (the scan is a single document-order pass
accepting exact or substring matches alike). -/
theorem claimC1_theorem (d : Doc) (form : Nat) (zen : Bool) (m : JMapping) :
    (∀ e, d.strategyIdName form m.htmlElementId = some e →
      resolveElement d form zen m = some e)
    ∧ (d.strategyIdName form m.htmlElementId = none →
       ∀ e, d.strategyLabel form zen m.label = some e →
         resolveElement d form zen m = some e)
    ∧ (d.strategyIdName form m.htmlElementId = none →
       d.strategyLabel form zen m.label = none →
       ∀ e, d.strategyRadio form m.typ m.value = some e →
         resolveElement d form zen m = some e)
    ∧ (d.strategyIdName form m.htmlElementId = none →
       d.strategyLabel form zen m.label = none →
       d.strategyRadio form m.typ m.value = none →
       ∀ e, d.strategyType form m.typ m.label = some e →
         resolveElement d form zen m = some e)
    ∧ (d.strategyIdName form m.htmlElementId = none →
       d.strategyLabel form zen m.label = none →
       d.strategyRadio form m.typ m.value = none →
       d.strategyType form m.typ m.label = none →
       resolveElement d form zen m = d.strategySubstr form m.htmlElementId) := by
  unfold resolveElement
  refine ⟨?_, ?_, ?_, ?_, ?_⟩
  · intro e h
    simp [h]
  · intro h1 e h
    simp [h1, h]
  · intro h1 h2 e h
    simp [h1, h2, h]
  · intro h1 h2 h3 e h
    simp [h1, h2, h3, h]
  · intro h1 h2 h3 h4
    simp [h1, h2, h3, h4]

/-- Witness for Claim C1: with an empty identifier the id/name strategy
yields nothing and the label strategy's find is returned unchanged. -/
theorem claimC1_witness :
    docLabelExample.strategyIdName 2 "" = none
    ∧ docLabelExample.strategyLabel 2 false "Name" = some 5
    ∧ resolveElement docLabelExample 2 false ⟨"", "x", "Name", "", ""⟩ = some 5 :=
  ⟨by decide, by decide,
    (claimC1_theorem docLabelExample 2 false ⟨"", "x", "Name", "", ""⟩).2.1
      (by decide) 5 (by decide)⟩

end QuickFill
